import Mathlib

/-!
Verification development for the `three-msdf-text-webgpu` repository.

The TypeScript sources are shallowly embedded: JavaScript numbers become
exact rationals (`ℚ`), `Float32Array` / `Uint32Array` buffers become
`List ℚ` / `List ℕ`, ES `Map`s become total lookup functions built by the
same insertion folds the sources perform, and class instances become
explicit state records transformed by pure functions.  Functions keep the
names of the source functions they embed.  The `word-wrapper` npm
dependency (the line producer consumed by `layoutText`) and the
glyph-color-aware revision of `buildGeometryAttributes` are not part of
the repository snapshot; those two definitions are modelled from the
specification and are marked as such in their doc comments.
-/

namespace MSDF

/-- Glyph record of the BMFont descriptor (`BMFontChar` in
`src/types/bmfont-json`): character code, atlas rectangle, offsets and
advance.  The purely decorative `char` display string is omitted. -/
structure BMFontChar where
  id : ℕ
  x : ℚ
  y : ℚ
  width : ℚ
  height : ℚ
  xoffset : ℚ
  yoffset : ℚ
  xadvance : ℚ
  deriving Repr, DecidableEq

/-- Kerning record of the BMFont descriptor. -/
structure BMFontKerning where
  first : ℕ
  second : ℕ
  amount : ℚ
  deriving Repr, DecidableEq

/-- Font descriptor (`BMFontJSON`): glyph list, kerning list, common
metrics and the design font size (`info.size`). -/
structure BMFontJSON where
  chars : List BMFontChar
  kernings : List BMFontKerning
  commonLineHeight : ℚ
  commonBase : ℚ
  commonScaleW : ℚ
  commonScaleH : ℚ
  infoSize : ℚ
  deriving Repr, DecidableEq

/-- Glyph lookup keyed by character code.  Mirrors
`buildGlyphAndKerningLookups`: a fold of `Map.set` insertions, so a later
duplicate id overwrites an earlier one. -/
def buildGlyphLookup (font : BMFontJSON) : ℕ → Option BMFontChar :=
  font.chars.foldl (fun m g => fun c => if c = g.id then some g else m c) (fun _ => none)

/-- Kerning lookup `(first, second) → amount`.  Mirrors the nested-map
construction in `buildGlyphAndKerningLookups`: later duplicates of the
same `(first, second)` pair overwrite earlier ones. -/
def buildKerningLookup (font : BMFontJSON) : ℕ → ℕ → Option ℚ :=
  font.kernings.foldl
    (fun m k => fun a b => if a = k.first ∧ b = k.second then some k.amount else m a b)
    (fun _ _ => none)

/-- Embeds `getKerningAmount`: `0` when either side is absent or when the
pair is not registered. -/
def getKerningAmount (kerningLookup : ℕ → ℕ → Option ℚ)
    (left : Option BMFontChar) (right : Option BMFontChar) : ℚ :=
  match left, right with
  | some l, some r => (kerningLookup l.id r.id).getD 0
  | _, _ => 0

/-- Result shape of the `measure` callback handed to the word wrapper:
`{start, end, width}`. -/
structure MeasureResult where
  start : ℕ
  endIdx : ℕ
  width : ℚ
  deriving Repr, DecidableEq

/-- Loop body of `measureRange` (src/unnamed/part_003 lines 64-87): walks
character indices `i < stop` carrying the pen position, running max right
edge and previous resolved glyph; an unresolved code clears the previous
glyph; a resolved glyph whose right edge exceeds `widthIncError` stops the
walk.  The JavaScript guard `widthIncError !== Number.MAX_VALUE` is the
floating-point sentinel that disables wrapping for the infinite widths of
`pre`/`nowrap` mode; the exact-arithmetic model covers the finite widths.
Returns the final index together with the accumulated max right edge. -/
def measureLoop (glyphLookup : ℕ → Option BMFontChar) (kerningLookup : ℕ → ℕ → Option ℚ)
    (fontSizeScale widthIncError letterSpacing : ℚ) (text : List ℕ) (stop : ℕ) :
    ℕ → ℕ → ℚ → ℚ → Option BMFontChar → ℕ × ℚ
  | 0, i, _penX, maxX, _lastGlyph => (i, maxX)
  | fuel + 1, i, penX, maxX, lastGlyph =>
      if i < stop then
        match glyphLookup (text.getD i 0) with
        | none =>
            measureLoop glyphLookup kerningLookup fontSizeScale widthIncError letterSpacing
              text stop fuel (i + 1) penX maxX none
        | some glyph =>
            let penX := penX + getKerningAmount kerningLookup lastGlyph (some glyph)
            let left := penX + glyph.xoffset * fontSizeScale
            let right := left + glyph.width * fontSizeScale
            let advance := glyph.xadvance * fontSizeScale + letterSpacing
            if right > widthIncError then (i, maxX)
            else
              measureLoop glyphLookup kerningLookup fontSizeScale widthIncError
                letterSpacing text stop fuel (i + 1) (penX + advance) (max maxX right)
                (some glyph)
      else (i, maxX)

/-- Embeds `measureRange` (src/unnamed/part_003 lines 45-94): clamps the
requested end to the text length, widens the wrap width by
`maxErrorPercent` percent and runs the measuring walk from a fresh pen
(`glyphCount` fuel always covers the walk). -/
def measureRange (glyphLookup : ℕ → Option BMFontChar) (kerningLookup : ℕ → ℕ → Option ℚ)
    (fontSizeScale maxErrorPercent letterSpacing : ℚ) (text : List ℕ)
    (start endIdx : ℕ) (width : ℚ) : MeasureResult :=
  let glyphCount := min text.length endIdx
  let widthIncError := width * (1 + maxErrorPercent / 100)
  let r := measureLoop glyphLookup kerningLookup fontSizeScale widthIncError letterSpacing
    text glyphCount glyphCount start 0 0 none
  ⟨start, r.1, r.2⟩

/-- Horizontal alignment values of `CanvasTextAlign` used by the layout. -/
inductive TextAlign where
  | left
  | center
  | right
  | start
  | endAlign
  deriving Repr, DecidableEq

/-- Vertical alignment values of the style snapshot. -/
inductive VerticalAlign where
  | top
  | center
  | bottom
  deriving Repr, DecidableEq

/-- Whitespace mode of the style snapshot. -/
inductive WhiteSpace where
  | normal
  | nowrap
  | pre
  deriving Repr, DecidableEq

/-- Style snapshot (`TextStyles` in `src/src/MSDFText/measure.ts`).  The
fields consumed only by the DOM / canvas measurement path (font family,
weight, style) are outside the layout model; `color` is an RGB triple and
`opacity` a rational. -/
structure TextStyles where
  widthPx : ℚ
  fontSize : ℚ
  lineHeightPx : ℚ
  letterSpacingPx : ℚ
  textAlign : TextAlign
  verticalAlign : VerticalAlign
  whiteSpace : WhiteSpace
  colorR : ℚ
  colorG : ℚ
  colorB : ℚ
  opacity : ℚ
  deriving Repr, DecidableEq

/-- Canvas measurement fields of `DomTextMetrics` that the layout reads
(`canvasRenderMeasurements`). -/
structure CanvasRenderMeasurements where
  baselineOffsetTop : ℚ
  deriving Repr, DecidableEq

/-- Metrics snapshot handed to `layoutText` (`DomTextMetrics`): the text is
a list of character codes (`charCodeAt` values). -/
structure DomTextMetrics where
  text : List ℕ
  fontCssStyles : TextStyles
  canvasRenderMeasurements : CanvasRenderMeasurements
  widthPx : ℚ
  deriving Repr, DecidableEq

/-- Line range produced by the word wrapper: `{start, end}` exclusive
character-index range. -/
structure Line where
  start : ℕ
  endIdx : ℕ
  deriving Repr, DecidableEq

/-- Whitespace test used by the modelled word wrapper (the dependency's
regular expression `\s` on the ASCII range). -/
def isWhitespaceCode (c : ℕ) : Bool :=
  c = 32 || c = 9 || c = 10 || c = 11 || c = 12 || c = 13

/-- Advances past leading whitespace (the wrapper eats whitespace at the
start of each candidate line). -/
def skipWsGo (text : List ℕ) : ℕ → ℕ → ℕ
  | 0, i => i
  | fuel + 1, i =>
      if i < text.length then
        if isWhitespaceCode (text.getD i 0) then skipWsGo text fuel (i + 1) else i
      else i

/-- Entry point of the whitespace skip with fuel covering the text. -/
def skipWs (text : List ℕ) (i : ℕ) : ℕ :=
  skipWsGo text text.length i

/-- Greatest whitespace position `j` with `start < j ≤ e`, the word
boundary the wrapper breaks at; `none` when the overflowing word reaches
back to the line start. -/
def lastWsIn (text : List ℕ) (start : ℕ) : ℕ → Option ℕ
  | 0 => none
  | j + 1 =>
      if start < j + 1 ∧ isWhitespaceCode (text.getD (j + 1) 0) then some (j + 1)
      else lastWsIn text start j

/-- Modelled from the spec: the greedy line builder of the `word-wrapper`
npm dependency consumed by `layoutText` is not part of the repository
snapshot.  Per spec §4.2, in `normal` mode lines accumulate words
(whitespace-delimited) while the measure callback reports an end position
within the tolerated width — exceeding the tolerance forces a break before
the offending unit at the preceding whitespace boundary (splitting the
word itself when it spans the whole line), and a single glyph wider than
the width is placed alone on its own line rather than dropped.  `measure`
is the pluggable width-measurement callback; `fuel` bounds the recursion
by the text length. -/
def greedyGo (measure : ℕ → ℕ → ℚ → MeasureResult) (text : List ℕ) (width : ℚ) :
    ℕ → ℕ → List Line
  | 0, _ => []
  | fuel + 1, start =>
      if start < text.length then
        let s := skipWs text start
        if s < text.length then
          let m := measure s text.length width
          if m.endIdx ≥ text.length then [⟨s, text.length⟩]
          else if m.endIdx = s then
            ⟨s, s + 1⟩ :: greedyGo measure text width fuel (s + 1)
          else
            match lastWsIn text s m.endIdx with
            | some j => ⟨s, j⟩ :: greedyGo measure text width fuel j
            | none => ⟨s, m.endIdx⟩ :: greedyGo measure text width fuel m.endIdx
        else []
      else []

/-- Modelled from the spec: `pre` mode of the absent `word-wrapper`
dependency — only explicit newline characters (code 10) cause breaks. -/
def preGo (text : List ℕ) : ℕ → ℕ → ℕ → List Line
  | 0, start, i => [⟨start, i⟩]
  | fuel + 1, start, i =>
      if i < text.length then
        if text.getD i 0 = 10 then ⟨start, i⟩ :: preGo text fuel (i + 1) (i + 1)
        else preGo text fuel start (i + 1)
      else [⟨start, i⟩]

/-- Modelled from the spec: `wordWrap.lines` of the absent `word-wrapper`
dependency.  `nowrap` yields the entire text as a single line regardless
of width, `pre` breaks on explicit newlines only, `normal` runs the greedy
word wrap; empty text yields one empty line. -/
def wordWrapLines (measure : ℕ → ℕ → ℚ → MeasureResult) (text : List ℕ)
    (width : ℚ) (mode : WhiteSpace) : List Line :=
  match mode with
  | .nowrap => [⟨0, text.length⟩]
  | .pre => preGo text (text.length + 1) 0 0
  | .normal =>
      if text.length = 0 then [⟨0, 0⟩]
      else greedyGo measure text width (text.length + 1) 0

/-- Placed glyph (`LayoutGlyph`): the nested `bottomLeftPosition` and
`size` objects are flattened into `x`/`y`/`width`/`height`; the decorative
`char` display string is omitted. -/
structure LayoutGlyph where
  index : ℕ
  code : ℕ
  lineIndex : ℕ
  x : ℚ
  y : ℚ
  width : ℚ
  height : ℚ
  atlas : BMFontChar
  deriving Repr, DecidableEq

/-- Per-line glyph walk of `layoutText` (src/unnamed/part_003 lines
155-196): re-resolves glyphs and kerning exactly as in measurement,
pushes a placed glyph per resolved code, tracks the running max right
edge (`lineWidth`) and the dense running ordinal (`glyphIndex`).
Returns the line's glyphs before alignment, the line width and the next
ordinal. -/
def lineWalk (glyphLookup : ℕ → Option BMFontChar) (kerningLookup : ℕ → ℕ → Option ℚ)
    (fontSizeScale letterSpacing topLineY yOffset : ℚ) (lineIndex : ℕ) (text : List ℕ)
    (stop : ℕ) :
    ℕ → ℕ → ℚ → ℚ → ℕ → Option BMFontChar → List LayoutGlyph × ℚ × ℕ
  | 0, _i, _penX, lineWidth, glyphIndex, _lastGlyph => ([], lineWidth, glyphIndex)
  | fuel + 1, i, penX, lineWidth, glyphIndex, lastGlyph =>
      if i < stop then
        match glyphLookup (text.getD i 0) with
        | none =>
            lineWalk glyphLookup kerningLookup fontSizeScale letterSpacing topLineY yOffset
              lineIndex text stop fuel (i + 1) penX lineWidth glyphIndex none
        | some glyph =>
            let penX := penX + getKerningAmount kerningLookup lastGlyph (some glyph)
            let glyphLeft := penX + glyph.xoffset * fontSizeScale
            let glyphTop := topLineY - glyph.yoffset * fontSizeScale
            let glyphBottom := glyphTop - glyph.height * fontSizeScale
            let glyphWidth := glyph.width * fontSizeScale
            let glyphHeight := glyph.height * fontSizeScale
            let placed : LayoutGlyph :=
              { index := glyphIndex, code := text.getD i 0, lineIndex := lineIndex,
                x := glyphLeft, y := glyphBottom + yOffset,
                width := glyphWidth, height := glyphHeight, atlas := glyph }
            let glyphRight := glyphLeft + glyphWidth
            let r := lineWalk glyphLookup kerningLookup fontSizeScale letterSpacing
              topLineY yOffset lineIndex text stop fuel (i + 1)
              (penX + glyph.xadvance * fontSizeScale + letterSpacing)
              (max lineWidth glyphRight) (glyphIndex + 1) (some glyph)
            (placed :: r.1, r.2)
      else ([], lineWidth, glyphIndex)

/-- Alignment offset computed after each line (src/unnamed/part_003 lines
198-206): `center` centres the line in the wrap width, `right`/`end`
flushes it right, everything else (`left`, `start`, default) is zero. -/
def alignOffset (textAlign : TextAlign) (widthPx lineWidth : ℚ) : ℚ :=
  if textAlign = .center then (widthPx - lineWidth) / 2
  else if textAlign = .right ∨ textAlign = .endAlign then widthPx - lineWidth
  else 0

/-- Per-line body of the `lines.forEach` in `layoutText`: walks each line
from a fresh pen, applies the uniform alignment x-offset to the line's
glyphs, and concatenates the lines in order while threading the running
glyph ordinal. -/
def layoutLines (glyphLookup : ℕ → Option BMFontChar) (kerningLookup : ℕ → ℕ → Option ℚ)
    (fontSizeScale letterSpacing fontLineHeight yOffset widthPx : ℚ)
    (textAlign : TextAlign) (text : List ℕ) :
    List Line → ℕ → ℕ → List LayoutGlyph
  | [], _, _ => []
  | line :: rest, lineIndex, glyphIndex =>
      let topLineY : ℚ := -(lineIndex * fontLineHeight)
      let r := lineWalk glyphLookup kerningLookup fontSizeScale letterSpacing topLineY
        yOffset lineIndex text line.endIdx line.endIdx line.start 0 0 glyphIndex none
      let offset := alignOffset textAlign widthPx r.2.1
      r.1.map (fun g => { g with x := g.x + offset }) ++
        layoutLines glyphLookup kerningLookup fontSizeScale letterSpacing fontLineHeight
          yOffset widthPx textAlign text rest (lineIndex + 1) r.2.2

/-- Result record of `layoutText`. -/
structure LayoutResult where
  glyphs : List LayoutGlyph
  lines : List Line
  width : ℚ
  height : ℚ
  deriving Repr, DecidableEq

/-- Embeds `layoutText` (src/unnamed/part_003 lines 112-221).  The wrap
mode is forwarded only for `pre`/`nowrap` (`normal` uses the wrapper's
default greedy mode); `maxErrorPercent` is hardcoded to `0.5`; the
effective line height is the style's `lineHeightPx` unless falsy (`0`),
falling back to the font's `common.lineHeight`; the block is the wrap
width by `lineHeight × lineCount`. -/
def layoutText (metrics : DomTextMetrics) (font : BMFontJSON) : LayoutResult :=
  let glyphLookup := buildGlyphLookup font
  let kerningLookup := buildKerningLookup font
  let fontSizeScale := metrics.fontCssStyles.fontSize / font.infoSize
  let maxErrorPercent : ℚ := 1 / 2
  let measure := fun start endIdx width =>
    measureRange glyphLookup kerningLookup fontSizeScale maxErrorPercent
      metrics.fontCssStyles.letterSpacingPx metrics.text start endIdx width
  let lines := wordWrapLines measure metrics.text metrics.widthPx
    metrics.fontCssStyles.whiteSpace
  let fontLineHeight :=
    if metrics.fontCssStyles.lineHeightPx = 0 then font.commonLineHeight
    else metrics.fontCssStyles.lineHeightPx
  let yOffset := font.commonBase * fontSizeScale -
    metrics.canvasRenderMeasurements.baselineOffsetTop
  let glyphs := layoutLines glyphLookup kerningLookup fontSizeScale
    metrics.fontCssStyles.letterSpacingPx fontLineHeight yOffset metrics.widthPx
    metrics.fontCssStyles.textAlign metrics.text lines 0 0
  ⟨glyphs, lines, metrics.widthPx, fontLineHeight * lines.length⟩

/-- Position block one glyph writes at `index * 12` in
`buildGeometryAttributes` (src/src/MSDFTextGeometry/geometry.ts lines
35-54): quad corners top-left, top-right, bottom-right, bottom-left, each
`[x, y, 0]`. -/
def glyphPositionBlock (g : LayoutGlyph) : List ℚ :=
  let x := g.x
  let yBottom := g.y
  let yTop := yBottom + g.height
  [x, yTop, 0,
   x + g.width, yTop, 0,
   x + g.width, yBottom, 0,
   x, yBottom, 0]

/-- UV block one glyph writes at `index * 8` (geometry.ts lines 56-76):
atlas rectangle normalized by the atlas size, with the V axis flipped when
`flipY` holds. -/
def glyphUvBlock (font : BMFontJSON) (flipY : Bool) (g : LayoutGlyph) : List ℚ :=
  let texWidth := font.commonScaleW
  let texHeight := font.commonScaleH
  let u0 := g.atlas.x / texWidth
  let v1Raw := g.atlas.y / texHeight
  let u1 := (g.atlas.x + g.atlas.width) / texWidth
  let v0Raw := (g.atlas.y + g.atlas.height) / texHeight
  let v0 := if flipY then 1 - v0Raw else v0Raw
  let v1 := if flipY then 1 - v1Raw else v1Raw
  [u0, v1, u1, v1, u1, v0, u0, v0]

/-- Center block one glyph writes at `index * 8` (geometry.ts lines
78-92): the glyph centroid repeated for the 4 vertices. -/
def glyphCenterBlock (g : LayoutGlyph) : List ℚ :=
  let centerX := g.x + g.width / 2
  let centerY := g.y + g.height / 2
  [centerX, centerY, centerX, centerY, centerX, centerY, centerX, centerY]

/-- Glyph-index block one glyph writes at `index * 4` (geometry.ts lines
94-98): the ordinal broadcast to the 4 vertices. -/
def glyphIndexBlock (index : ℕ) : List ℕ :=
  [index, index, index, index]

/-- Triangle-index block one glyph writes at `index * 6` (geometry.ts
lines 100-109): two CCW triangles over vertex base `index * 4`. -/
def glyphTriangleBlock (index : ℕ) : List ℕ :=
  let verticesIndex := index * 4
  [verticesIndex, verticesIndex + 2, verticesIndex + 1,
   verticesIndex, verticesIndex + 3, verticesIndex + 2]

/-- Runs an indexed per-glyph emitter over the glyph list, mirroring the
single `glyphs.forEach((glyph, index) => ...)` loop of
`buildGeometryAttributes` writing each glyph's block at `index * stride`:
the resulting flat buffer is the concatenation of the per-glyph blocks in
order. -/
def emitBlocks {α : Type} (f : ℕ → LayoutGlyph → List α) : ℕ → List LayoutGlyph → List α
  | _, [] => []
  | i, g :: gs => f i g ++ emitBlocks f (i + 1) gs

/-- Buffer set produced by `buildGeometryAttributes`
(src/src/MSDFTextGeometry/geometry.ts); the source's `glpyhIndices`
spelling is kept. -/
structure GeometryAttributes where
  positions : List ℚ
  uvs : List ℚ
  centers : List ℚ
  indices : List ℕ
  glpyhIndices : List ℕ
  deriving Repr, DecidableEq

/-- Embeds `buildGeometryAttributes` (src/src/MSDFTextGeometry/geometry.ts
lines 4-119): allocates `glyphCount * 6` triangle indices and per-vertex
buffers of `4 * glyphCount` vertices (12 position floats, 8 UV floats,
8 center floats, 4 glyph indices per glyph) and fills each glyph's block
at its ordinal offset. -/
def buildGeometryAttributes (glyphs : List LayoutGlyph) (font : BMFontJSON)
    (flipY : Bool) : GeometryAttributes :=
  { positions := emitBlocks (fun _ g => glyphPositionBlock g) 0 glyphs
    uvs := emitBlocks (fun _ g => glyphUvBlock font flipY g) 0 glyphs
    centers := emitBlocks (fun _ g => glyphCenterBlock g) 0 glyphs
    indices := emitBlocks (fun i _ => glyphTriangleBlock i) 0 glyphs
    glpyhIndices := emitBlocks (fun i _ => glyphIndexBlock i) 0 glyphs }

/-- Per-glyph color body shared by `MSDFTextGeometry.setGlyphColors`
(src/src/MSDFTextGeometry/index.ts lines 113-128) and, per spec §4.4, by
the revised color-aware builder: each color component is
`colors?.[4i + c] ?? 1.0` — a missing array or a component beyond the
array's end falls back to opaque white — broadcast to the glyph's 4
vertices. -/
def glyphColorBlock (glyphColors : Option (List ℚ)) (index : ℕ) : List ℚ :=
  let r := (glyphColors.getD []).getD (index * 4) 1
  let g := (glyphColors.getD []).getD (index * 4 + 1) 1
  let b := (glyphColors.getD []).getD (index * 4 + 2) 1
  let a := (glyphColors.getD []).getD (index * 4 + 3) 1
  [r, g, b, a, r, g, b, a, r, g, b, a, r, g, b, a]

/-- Buffer set of the revised builder: the colorless buffers plus the
glyph-color buffer and the reported glyph count. -/
structure GeometryAttributesWithColors where
  positions : List ℚ
  uvs : List ℚ
  centers : List ℚ
  indices : List ℕ
  glyphIndices : List ℕ
  glyphColors : List ℚ
  glyphCount : ℕ
  deriving Repr, DecidableEq

/-- Modelled from the spec: the revised `buildGeometryAttributes`
destructured by `MSDFTextGeometry.update` as
`{positions, uvs, centers, indices, glyphIndices, glyphColors, glyphCount}`.
It produces the same geometry buffers as the colorless builder in src,
plus the per-vertex glyph-color buffer (`glyphColorBlock`) and
`glyphCount`, the number of placed glyphs. -/
def buildGeometryAttributesWithColors (glyphs : List LayoutGlyph) (font : BMFontJSON)
    (flipY : Bool) (glyphColors : Option (List ℚ)) : GeometryAttributesWithColors :=
  let base := buildGeometryAttributes glyphs font flipY
  { positions := base.positions
    uvs := base.uvs
    centers := base.centers
    indices := base.indices
    glyphIndices := base.glpyhIndices
    glyphColors := emitBlocks (fun i _ => glyphColorBlock glyphColors i) 0 glyphs
    glyphCount := glyphs.length }

/-- Buffer attribute (`THREE.BufferAttribute`): `id` models the JavaScript
object identity (reference equality), `array` the typed-array content. -/
structure Attr (α : Type) where
  id : ℕ
  array : List α
  deriving Repr, DecidableEq

/-- Models `TypedArray.prototype.set(src)` at offset 0 on `dst`: the
source is copied over the front of the destination, the tail beyond the
source length is kept. -/
def overwriteArray {α : Type} (dst src : List α) : List α :=
  src ++ dst.drop src.length

/-- Color-rebuild loop of `MSDFTextGeometry.setGlyphColors`
(src/src/MSDFTextGeometry/index.ts lines 111-129): a fresh
`glyphCount * 16` buffer filled glyph by glyph with `glyphColorBlock`. -/
def rebuildGlyphColors (colors : Option (List ℚ)) (glyphCount : ℕ) : List ℚ :=
  ((List.range glyphCount).map (fun i => glyphColorBlock colors i)).flatten

/-- State of a `MSDFTextGeometry` instance
(src/src/MSDFTextGeometry/index.ts): cached layout outputs, the font, the
stored `_glyphColors` array, the six buffer attributes (absent before the
first `update` builds them) and a fresh-id counter modelling allocation of
new attribute objects. -/
structure GeometryState where
  width : ℚ
  height : ℚ
  verticalAlign : VerticalAlign
  textAlign : TextAlign
  currentMetrics : Option DomTextMetrics
  currentGlyphCount : Option ℕ
  font : BMFontJSON
  storedGlyphColors : Option (List ℚ)
  position : Option (Attr ℚ)
  uv : Option (Attr ℚ)
  center : Option (Attr ℚ)
  glyphIndices : Option (Attr ℕ)
  glyphColorsAttr : Option (Attr ℚ)
  index : Option (Attr ℕ)
  nextId : ℕ
  deriving Repr, DecidableEq

/-- Color state `update` works with: the stored `_glyphColors` when the
argument is omitted (`undefined`), the argument's value otherwise. -/
def GeometryState.updateStored (st : GeometryState)
    (glyphColorsArg : Option (Option (List ℚ))) : Option (List ℚ) :=
  match glyphColorsArg with
  | none => st.storedGlyphColors
  | some v => v

/-- Buffer set `update` builds: the layout pass over the new metrics fed
into the color-aware builder (the source's local `built` bindings, named
so the theorems can speak about them). -/
def GeometryState.updateBuilt (st : GeometryState) (metrics : DomTextMetrics)
    (glyphColorsArg : Option (Option (List ℚ))) : GeometryAttributesWithColors :=
  buildGeometryAttributesWithColors (layoutText metrics st.font).glyphs st.font true
    (st.updateStored glyphColorsArg)

/-- Embeds `MSDFTextGeometry.update` (src/src/MSDFTextGeometry/index.ts
lines 57-104).  `glyphColorsArg = none` models an omitted (`undefined`)
argument that keeps the stored colors; `some v` overwrites them.  When the
new glyph count equals the cached one the position/uv/center/glyph-color
arrays are overwritten in place (attribute identity kept, index and
glyph-index attributes untouched); otherwise all six attributes are
reallocated as fresh objects. -/
def GeometryState.update (st : GeometryState) (metrics : DomTextMetrics)
    (glyphColorsArg : Option (Option (List ℚ))) : GeometryState :=
  let stored := st.updateStored glyphColorsArg
  let layout := layoutText metrics st.font
  let built := st.updateBuilt metrics glyphColorsArg
  let st' := { st with
    storedGlyphColors := stored
    width := layout.width
    height := layout.height
    verticalAlign := metrics.fontCssStyles.verticalAlign
    textAlign := metrics.fontCssStyles.textAlign
    currentMetrics := some metrics
    currentGlyphCount := some built.glyphCount }
  if st.currentGlyphCount = some built.glyphCount then
    { st' with
      position := st.position.map (fun a => ⟨a.id, overwriteArray a.array built.positions⟩)
      uv := st.uv.map (fun a => ⟨a.id, overwriteArray a.array built.uvs⟩)
      center := st.center.map (fun a => ⟨a.id, overwriteArray a.array built.centers⟩)
      glyphColorsAttr := st.glyphColorsAttr.map
        (fun a => ⟨a.id, overwriteArray a.array built.glyphColors⟩) }
  else
    { st' with
      position := some ⟨st.nextId, built.positions⟩
      uv := some ⟨st.nextId + 1, built.uvs⟩
      center := some ⟨st.nextId + 2, built.centers⟩
      glyphIndices := some ⟨st.nextId + 3, built.glyphIndices⟩
      glyphColorsAttr := some ⟨st.nextId + 4, built.glyphColors⟩
      index := some ⟨st.nextId + 5, built.indices⟩
      nextId := st.nextId + 6 }

/-- Embeds the `glyphCount` getter: `this.currentGlyphCount || 0`. -/
def GeometryState.glyphCount (st : GeometryState) : ℕ :=
  st.currentGlyphCount.getD 0

/-- Embeds `MSDFTextGeometry.setGlyphColors`
(src/src/MSDFTextGeometry/index.ts lines 106-137): stores the raw color
array, rebuilds the full per-vertex color buffer with white fallbacks and
either overwrites the existing color attribute in place or creates it. -/
def GeometryState.setGlyphColors (st : GeometryState) (colors : Option (List ℚ)) :
    GeometryState :=
  let glyphCount := st.currentGlyphCount.getD 0
  let builtColors := rebuildGlyphColors colors glyphCount
  match st.glyphColorsAttr with
  | some a =>
      { st with
        storedGlyphColors := colors
        glyphColorsAttr := some ⟨a.id, overwriteArray a.array builtColors⟩ }
  | none =>
      { st with
        storedGlyphColors := colors
        glyphColorsAttr := some ⟨st.nextId, builtColors⟩
        nextId := st.nextId + 1 }

/-- Fresh `MSDFTextGeometry` state before the constructor's `update` call:
no attributes, no cached glyph count. -/
def GeometryState.initial (font : BMFontJSON) (glyphColors : Option (List ℚ)) :
    GeometryState :=
  { width := 0, height := 0, verticalAlign := .top, textAlign := .left
    currentMetrics := none, currentGlyphCount := none, font := font
    storedGlyphColors := glyphColors
    position := none, uv := none, center := none, glyphIndices := none
    glyphColorsAttr := none, index := none, nextId := 0 }

/-- Embeds the `MSDFTextGeometry` constructor: stores the font and colors,
then runs `update(options.metrics)` with the colors argument omitted. -/
def GeometryState.mkGeometry (font : BMFontJSON) (glyphColors : Option (List ℚ))
    (metrics : DomTextMetrics) : GeometryState :=
  (GeometryState.initial font glyphColors).update metrics none

/-- Identity of an optional attribute as a (zero- or one-element) id
list, for stating object-identity disjointness. -/
def attrId {α : Type} (o : Option (Attr α)) : List ℕ :=
  match o with
  | none => []
  | some a => [a.id]

/-- All attribute object identities held by a geometry state. -/
def GeometryState.attrIds (st : GeometryState) : List ℕ :=
  attrId st.position ++ attrId st.uv ++ attrId st.center ++ attrId st.glyphIndices ++
    attrId st.glyphColorsAttr ++ attrId st.index

/-- Checks an optional attribute's id lies below the allocation
counter. -/
def attrIdBelow {α : Type} (o : Option (Attr α)) (n : ℕ) : Bool :=
  match o with
  | none => true
  | some a => a.id < n

/-- Well-formedness of the identity model: every held attribute was
allocated below the fresh-id counter (true of every state the embedded
constructor and methods produce). -/
def GeometryState.wellFormed (st : GeometryState) : Bool :=
  attrIdBelow st.position st.nextId && attrIdBelow st.uv st.nextId &&
    attrIdBelow st.center st.nextId && attrIdBelow st.glyphIndices st.nextId &&
    attrIdBelow st.glyphColorsAttr st.nextId && attrIdBelow st.index st.nextId

/-- Normalized RGB color (a `THREE.Color` after conversion from any
`ColorRepresentation`; components in `[0, 1]`). -/
structure Color3 where
  r : ℚ
  g : ℚ
  b : ℚ
  deriving Repr, DecidableEq

/-- Per-glyph color input accepted by `MSDFText` (`GlyphColorInput` in
src/unnamed/part_000): a raw interleaved RGBA float array, a list of
colors, or a list of `{color, opacity?}` pairs; the `null` case is the
`none` of an `Option GlyphColorInput`. -/
inductive GlyphColorInput where
  | raw (data : List ℚ)
  | colors (entries : List Color3)
  | pairs (entries : List (Color3 × Option ℚ))
  deriving Repr, DecidableEq

/-- Embeds `MSDFText.processGlyphColors` (src/unnamed/part_000 lines
126-160): a raw array passes through unchanged; a non-empty entry list is
normalized to `glyphCount * 4` interleaved floats, repeating entries by
index modulo the list length, with alpha `1` for plain colors and
`opacity ?? 1` for pairs; `null` input and empty lists yield `null`. -/
def processGlyphColors (input : Option GlyphColorInput) (glyphCount : ℕ) :
    Option (List ℚ) :=
  match input with
  | none => none
  | some (.raw d) => some d
  | some (.colors es) =>
      if 0 < es.length then
        some (((List.range glyphCount).map (fun i =>
          let e := es.getD (i % es.length) ⟨0, 0, 0⟩
          [e.r, e.g, e.b, 1])).flatten)
      else none
  | some (.pairs es) =>
      if 0 < es.length then
        some (((List.range glyphCount).map (fun i =>
          let e := es.getD (i % es.length) (⟨0, 0, 0⟩, none)
          [e.1.r, e.1.g, e.1.b, e.2.getD 1])).flatten)
      else none

/-- Write into a `Float32Array`: an out-of-range index is silently
ignored (`List.set` semantics coincide with typed-array stores). -/
def writeF32 (arr : List ℚ) (i : ℕ) (v : ℚ) : List ℚ :=
  arr.set i v

/-- State of a `MSDFText` mesh (src/unnamed/part_000): the stored
`_glyphColors` array and the geometry; the material's per-letter color
node is summarized by the `usingAttributeColors` flag (shader-graph
plumbing stays outside the buffer model). -/
structure TextState where
  storedGlyphColors : Option (List ℚ)
  geom : GeometryState
  usingAttributeColors : Bool
  deriving Repr, DecidableEq

/-- Color array `setGlyphColor` writes: the stored colors (initialized to
opaque white when absent) with the indexed glyph's 4 floats overwritten —
typed-array semantics, so writes past the array's end are dropped.  Named
out of `MSDFText.setGlyphColor`'s body so the theorems can speak about
it. -/
def TextState.writtenColors (st : TextState) (index : ℤ) (color : Color3)
    (opacity : ℚ) : List ℚ :=
  let i := index.toNat
  let base := match st.storedGlyphColors with
    | none => List.replicate (st.geom.glyphCount * 4) 1
    | some c => c
  writeF32 (writeF32 (writeF32 (writeF32 base
    (i * 4) color.r) (i * 4 + 1) color.g) (i * 4 + 2) color.b) (i * 4 + 3) opacity

/-- Embeds `MSDFText.setGlyphColor` (src/unnamed/part_000 lines 91-115):
an index outside `[0, glyphCount)` returns immediately; otherwise the
written color array is stored and the geometry's color attribute is
rebuilt from it. -/
def TextState.setGlyphColor (st : TextState) (index : ℤ) (color : Color3)
    (opacity : ℚ) : TextState :=
  let glyphCount := st.geom.glyphCount
  if index < 0 ∨ (glyphCount : ℤ) ≤ index then st
  else
    let written := st.writtenColors index color opacity
    { storedGlyphColors := some written
      geom := st.geom.setGlyphColors (some written)
      usingAttributeColors := true }

/-- GLSL `median` helper of the MSDF materials
(src/src/MSDFTextMaterial/index.ts): `max(min(r,g), min(max(r,g), b))`. -/
def median3 (r g b : ℚ) : ℚ :=
  max (min r g) (min (max r g) b)

/-- GLSL `clamp(x, 0, 1)`. -/
def clamp01 (x : ℚ) : ℚ :=
  min (max x 0) 1

/-- GLSL `mix(x, y, t) = x (1 - t) + y t`. -/
def glslMix (x y t : ℚ) : ℚ :=
  x * (1 - t) + y * t

/-- GLSL `smoothstep(e0, e1, x)`. -/
def glslSmoothstep (e0 e1 x : ℚ) : ℚ :=
  let t := clamp01 ((x - e0) / (e1 - e0))
  t * t * (3 - 2 * t)

/-- Smoothing half-width `afwidth = 1.4142135623730951 / 2` of the MSDF
materials (the float literal for √2, kept exactly). -/
def afwidth : ℚ :=
  (14142135623730951 / 10000000000000000) / 2

/-- Uniforms of the stroke-capable MSDF material
(src/src/MSDFTextMaterial/index.ts lines 183-272): smoothing threshold,
outset and inset stroke widths, and the 0/1 smoothing flag. -/
structure FragmentUniforms where
  threshold : ℚ
  strokeOutsetWidth : ℚ
  strokeInsetWidth : ℚ
  isSmooth : ℚ
  deriving Repr, DecidableEq

/-- Intermediate values of the per-pixel MSDF computation. -/
structure FragmentResult where
  sigDist : ℚ
  alpha : ℚ
  sigDistOutset : ℚ
  sigDistInset : ℚ
  outsetAlpha : ℚ
  insetAlpha : ℚ
  border : ℚ
  deriving Repr, DecidableEq

/-- Embeds the per-pixel MSDF shading node graph
(src/src/MSDFTextMaterial/index.ts lines 215-253, identical in structure
to lines 80-119): `sigDist` is the median channel minus 0.5, sharp alpha
the fwidth-normalized ramp, smooth alpha a smoothstep around the
threshold, blended by `isSmooth`.  The stroke outset and inset signed
distances are the source's lines 238-239: both add
`strokeOutsetWidth * 0.5` (the declared `strokeInsetWidth` uniform is
never read).  `fw` models the per-pixel `fwidth(sigDist)` derivative; the
stroke offsets are per-pixel constants, so the three `fwidth` calls
coincide on it. -/
def msdfFragment (u : FragmentUniforms) (r g b fw : ℚ) : FragmentResult :=
  let sigDist := median3 r g b - 1 / 2
  let alphaSharp := clamp01 (sigDist / fw + 1 / 2)
  let smoothAlpha := glslSmoothstep (u.threshold - afwidth) (u.threshold + afwidth) sigDist
  let alpha := glslMix alphaSharp smoothAlpha u.isSmooth
  let sigDistOutset := sigDist + u.strokeOutsetWidth * (1 / 2)
  let sigDistInset := sigDist + u.strokeOutsetWidth * (1 / 2)
  let outsetSharp := clamp01 (sigDistOutset / fw + 1 / 2)
  let insetSharp := 1 - clamp01 (sigDistInset / fw + 1 / 2)
  let smoothOutset := glslSmoothstep (u.threshold - afwidth) (u.threshold + afwidth)
    sigDistOutset
  let smoothInset := 1 - glslSmoothstep (u.threshold - afwidth) (u.threshold + afwidth)
    sigDistInset
  let outset := glslMix outsetSharp smoothOutset u.isSmooth
  let inset := glslMix insetSharp smoothInset u.isSmooth
  { sigDist := sigDist, alpha := alpha
    sigDistOutset := sigDistOutset, sigDistInset := sigDistInset
    outsetAlpha := outset, insetAlpha := inset, border := outset * inset }

/-- Stated from the claim's words for comparison with the source: the
inset signed distance the claim describes, `sigDist` offset by half the
configured stroke INSET width. -/
def claimSigDistInset (u : FragmentUniforms) (sigDist : ℚ) : ℚ :=
  sigDist + u.strokeInsetWidth * (1 / 2)

/-- Stated from the claim's words for comparison with the source: the
sharp inset alpha computed from `claimSigDistInset` (one minus the
fwidth-normalized ramp). -/
def claimInsetAlphaSharp (u : FragmentUniforms) (sigDist fw : ℚ) : ℚ :=
  1 - clamp01 (claimSigDistInset u sigDist / fw + 1 / 2)

/-- Count of characters in `[i, stop)` whose code resolves to a glyph of
the lookup — the characters that produce placed glyphs. -/
def resolvedCount (glyphLookup : ℕ → Option BMFontChar) (text : List ℕ)
    (i stop : ℕ) : ℕ :=
  ((List.range' i (stop - i)).filter
    (fun j => (glyphLookup (text.getD j 0)).isSome)).length

/-- Running glyph ordinal at the start of line `k`: the resolved
characters of all earlier lines (the value `layoutText`'s `glyphIndex`
counter holds when line `k` begins). -/
def glyphIndexBefore (glyphLookup : ℕ → Option BMFontChar) (text : List ℕ)
    (lines : List Line) (k : ℕ) : ℕ :=
  ((lines.take k).map
    (fun line => resolvedCount glyphLookup text line.start line.endIdx)).sum

/-- Concrete glyph `a` (code 97) of the demonstration font used to
instantiate the theorems: an 8×10 atlas rectangle with offset (1, 2) and
advance 10. -/
def demoGlyphA : BMFontChar := ⟨97, 0, 0, 8, 10, 1, 2, 10⟩

/-- Concrete glyph `b` (code 98) of the demonstration font. -/
def demoGlyphB : BMFontChar := ⟨98, 8, 0, 8, 10, 1, 2, 10⟩

/-- Concrete space glyph (code 32) of the demonstration font: empty
rectangle, advance 10. -/
def demoGlyphSpace : BMFontChar := ⟨32, 16, 0, 0, 0, 0, 0, 10⟩

/-- Demonstration font: three glyphs, one kerning pair `(a, b) → -2`,
line height 12, base 9, a 64×64 atlas and design size 16. -/
def demoFont : BMFontJSON :=
  ⟨[demoGlyphA, demoGlyphB, demoGlyphSpace], [⟨97, 98, -2⟩], 12, 9, 64, 64, 16⟩

/-- Demonstration style snapshot: font size 16 (scale 1), no letter
spacing, left alignment, `normal` whitespace. -/
def demoStyles : TextStyles :=
  ⟨100, 16, 0, 0, .left, .top, .normal, 1, 1, 1, 1⟩

/-- Demonstration metrics: the text `ab ab` (codes 97 98 32 97 98) at wrap
width 100 with baseline offset 3. -/
def demoMetrics : DomTextMetrics :=
  ⟨[97, 98, 32, 97, 98], demoStyles, ⟨3⟩, 100⟩

/-- Demonstration metrics at narrow wrap width 25, forcing a wrap of
`ab ab` after the first word. -/
def demoMetricsNarrow : DomTextMetrics :=
  ⟨[97, 98, 32, 97, 98], { demoStyles with widthPx := 25 }, ⟨3⟩, 25⟩

/-- Two concretely placed glyphs used to instantiate the buffer-builder
theorems directly. -/
def demoPlaced : List LayoutGlyph :=
  [⟨0, 97, 0, 1, -6, 8, 10, demoGlyphA⟩, ⟨1, 98, 0, 9, -6, 8, 10, demoGlyphB⟩]

/-- Demonstration metrics in `nowrap` mode (text `ab ab`, 5 glyphs). -/
def demoMetricsNowrap : DomTextMetrics :=
  ⟨[97, 98, 32, 97, 98], { demoStyles with whiteSpace := .nowrap }, ⟨3⟩, 100⟩

/-- Demonstration metrics in `nowrap` mode with a different glyph count
(text `ab`, 2 glyphs). -/
def demoMetricsNowrapB : DomTextMetrics :=
  ⟨[97, 98], { demoStyles with whiteSpace := .nowrap }, ⟨3⟩, 100⟩

/-- Concrete geometry state built by the embedded constructor over the
`nowrap` demonstration metrics. -/
def demoGeometry : GeometryState :=
  GeometryState.mkGeometry demoFont none demoMetricsNowrap

/-- Concrete two-glyph text state whose stored raw color array covers only
glyph 0 (length 4 instead of 8) — reachable by passing a short raw
`Float32Array` to `setGlyphColors`. -/
def demoShortColorState : TextState :=
  { storedGlyphColors := some [1/2, 1/2, 1/2, 1]
    geom :=
      { width := 0, height := 0, verticalAlign := .top, textAlign := .left
        currentMetrics := none, currentGlyphCount := some 2, font := demoFont
        storedGlyphColors := some [1/2, 1/2, 1/2, 1]
        position := some ⟨0, []⟩, uv := some ⟨1, []⟩, center := some ⟨2, []⟩
        glyphIndices := some ⟨3, []⟩
        glyphColorsAttr := some ⟨4, rebuildGlyphColors (some [1/2, 1/2, 1/2, 1]) 2⟩
        index := some ⟨5, []⟩, nextId := 6 }
    usingAttributeColors := true }

section ListHelpers

lemma resolvedCount_stop (glyphLookup : ℕ → Option BMFontChar) (text : List ℕ)
    (i stop : ℕ) (h : ¬ i < stop) : resolvedCount glyphLookup text i stop = 0 := by
  have hz : stop - i = 0 := by omega
  simp [resolvedCount, hz]

lemma resolvedCount_step (glyphLookup : ℕ → Option BMFontChar) (text : List ℕ)
    (i stop : ℕ) (h : i < stop) :
    resolvedCount glyphLookup text i stop =
      (if (glyphLookup (text.getD i 0)).isSome then 1 else 0) +
        resolvedCount glyphLookup text (i + 1) stop := by
  have hs : stop - i = (stop - (i + 1)) + 1 := by omega
  rw [resolvedCount, hs, List.range'_succ, List.filter_cons]
  by_cases hg : (glyphLookup (text.getD i 0)).isSome
  · rw [if_pos hg, if_pos hg, List.length_cons, resolvedCount]
    omega
  · rw [if_neg hg, if_neg hg, resolvedCount]
    omega


lemma emitBlocks_length {α : Type} (f : ℕ → LayoutGlyph → List α) (k : ℕ)
    (hk : ∀ i g, (f i g).length = k) :
    ∀ (gs : List LayoutGlyph) (i : ℕ), (emitBlocks f i gs).length = k * gs.length := by
  intro gs
  induction gs with
  | nil => intro i; simp [emitBlocks]
  | cons g gs ih =>
      intro i
      simp [emitBlocks, hk, ih]
      ring

lemma emitBlocks_mem {α : Type} (f : ℕ → LayoutGlyph → List α) :
    ∀ (gs : List LayoutGlyph) (i : ℕ) (e : α), e ∈ emitBlocks f i gs →
      ∃ j g, i ≤ j ∧ j < i + gs.length ∧ e ∈ f j g := by
  intro gs
  induction gs with
  | nil => intro i e he; simp [emitBlocks] at he
  | cons g gs ih =>
      intro i e he
      simp only [emitBlocks, List.mem_append] at he
      rcases he with he | he
      · exact ⟨i, g, le_refl i, by simp, he⟩
      · obtain ⟨j, g', hj1, hj2, hj3⟩ := ih (i + 1) e he
        exact ⟨j, g', by omega, by simp at hj2 ⊢; omega, hj3⟩

lemma flatten_blocks_extract {α : Type} (k : ℕ) :
    ∀ (ls : List (List α)) (i : ℕ), (∀ l ∈ ls, l.length = k) → i < ls.length →
      ((ls.flatten.drop (k * i)).take k) = ls.getD i [] := by
  intro ls
  induction ls with
  | nil => intro i _ hi; simp at hi
  | cons l ls ih =>
      intro i hk hi
      cases i with
      | zero =>
          have hl : l.length = k := hk l (by simp)
          simp only [List.flatten_cons, Nat.mul_zero, List.drop_zero, List.getD_cons_zero]
          rw [← hl, List.take_left]
      | succ i =>
          have hl : l.length = k := hk l (by simp)
          have hdrop : (l ++ ls.flatten).drop (k * (i + 1)) = ls.flatten.drop (k * i) := by
            have : k * (i + 1) = l.length + k * i := by rw [hl]; ring
            rw [this, List.drop_append]
          simp only [List.flatten_cons, hdrop, List.getD_cons_succ]
          exact ih i (fun x hx => hk x (by simp [hx])) (by simpa using hi)

lemma flatten_map_range_extract {α : Type} (f : ℕ → List α) (k n i : ℕ)
    (hk : ∀ j, (f j).length = k) (hi : i < n) :
    ((((List.range n).map f).flatten.drop (k * i)).take k) = f i := by
  rw [flatten_blocks_extract k (((List.range n).map f)) i
    (by intro l hl; obtain ⟨j, _, rfl⟩ := List.mem_map.mp hl; exact hk j)
    (by simpa using hi)]
  rw [List.getD_eq_getElem _ _ (by simpa using hi)]
  simp

lemma flatten_map_range_getD {α : Type} (f : ℕ → List α) (k n i r : ℕ) (d : α)
    (hk : ∀ j, (f j).length = k) (hi : i < n) (hr : r < k) :
    (((List.range n).map f).flatten).getD (k * i + r) d = (f i).getD r d := by
  have hextract := flatten_map_range_extract f k n i hk hi
  set L := ((List.range n).map f).flatten with hL
  rw [← hextract]
  rcases Nat.lt_or_ge (k * i + r) L.length with hlen | hlen
  · rw [List.getD_eq_getElem L d hlen]
    have h1 : r < ((L.drop (k * i)).take k).length := by
      simp only [List.length_take, List.length_drop]
      omega
    rw [List.getD_eq_getElem _ d h1]
    simp only [List.getElem_take, List.getElem_drop]
  · have h2 : ¬ r < ((L.drop (k * i)).take k).length := by
      simp only [List.length_take, List.length_drop]
      omega
    rw [List.getD_eq_default L d (by omega), List.getD_eq_default _ d (by omega)]

lemma replicate_block_flatten {α : Type} (k n : ℕ) (x : α) :
    ((List.range n).map (fun _ => List.replicate k x)).flatten = List.replicate (k * n) x := by
  induction n with
  | zero => simp
  | succ n ih =>
      rw [List.range_succ, List.map_append, List.flatten_append]
      simp only [List.map_cons, List.map_nil, List.flatten_cons, List.flatten_nil, ih,
        List.append_nil]
      rw [← List.replicate_add, Nat.mul_succ]

end ListHelpers

lemma lineWalk_length (glyphLookup : ℕ → Option BMFontChar)
    (kerningLookup : ℕ → ℕ → Option ℚ) (fontSizeScale letterSpacing topLineY yOffset : ℚ)
    (lineIndex : ℕ) (text : List ℕ) (stop : ℕ) :
    ∀ (fuel i : ℕ), stop - i ≤ fuel →
      ∀ (penX lineWidth : ℚ) (glyphIndex : ℕ) (lastGlyph : Option BMFontChar),
        (lineWalk glyphLookup kerningLookup fontSizeScale letterSpacing topLineY yOffset
          lineIndex text stop fuel i penX lineWidth glyphIndex lastGlyph).1.length =
        resolvedCount glyphLookup text i stop := by
  intro fuel
  induction fuel with
  | zero =>
      intro i hle penX lineWidth glyphIndex lastGlyph
      rw [resolvedCount_stop glyphLookup text i stop (by omega)]
      simp [lineWalk]
  | succ fuel ih =>
      intro i hle penX lineWidth glyphIndex lastGlyph
      by_cases hi : i < stop
      · rw [resolvedCount_step glyphLookup text i stop hi]
        simp only [lineWalk, if_pos hi]
        cases hg : glyphLookup (text.getD i 0) with
        | none => simp [hg, ih (i + 1) (by omega)]
        | some glyph => simp [hg, ih (i + 1) (by omega)]; omega
      · rw [resolvedCount_stop glyphLookup text i stop hi]
        simp [lineWalk, if_neg hi]

lemma layoutLines_length (glyphLookup : ℕ → Option BMFontChar)
    (kerningLookup : ℕ → ℕ → Option ℚ)
    (fontSizeScale letterSpacing fontLineHeight yOffset widthPx : ℚ)
    (textAlign : TextAlign) (text : List ℕ) :
    ∀ (lines : List Line) (lineIndex glyphIndex : ℕ),
      (layoutLines glyphLookup kerningLookup fontSizeScale letterSpacing fontLineHeight
        yOffset widthPx textAlign text lines lineIndex glyphIndex).length =
      (lines.map (fun line => resolvedCount glyphLookup text line.start line.endIdx)).sum := by
  intro lines
  induction lines with
  | nil => intro lineIndex glyphIndex; simp [layoutLines]
  | cons line rest ih =>
      intro lineIndex glyphIndex
      simp only [layoutLines, List.length_append, List.length_map, List.map_cons,
        List.sum_cons, ih]
      rw [lineWalk_length _ _ _ _ _ _ _ _ _ _ _ (by omega)]

/-- Claim C2 — for every list of placed glyphs and font, the builder's
per-vertex buffers share vertex count `4 × glyphCount` (12 position
floats, 8 UV floats, 8 center floats and 4 glyph indices per glyph), the
index buffer holds exactly `6 × glyphCount` entries each lying in
`[0, 4 × glyphCount)`; and the glyph count of a layout pass counts exactly
the characters of its lines that resolved to a known glyph. -/
theorem claim_C2_buffer_invariants :
    (∀ (glyphs : List LayoutGlyph) (font : BMFontJSON) (flipY : Bool),
      (buildGeometryAttributes glyphs font flipY).positions.length = 12 * glyphs.length ∧
      (buildGeometryAttributes glyphs font flipY).uvs.length = 8 * glyphs.length ∧
      (buildGeometryAttributes glyphs font flipY).centers.length = 8 * glyphs.length ∧
      (buildGeometryAttributes glyphs font flipY).glpyhIndices.length = 4 * glyphs.length ∧
      (buildGeometryAttributes glyphs font flipY).indices.length = 6 * glyphs.length ∧
      (∀ e ∈ (buildGeometryAttributes glyphs font flipY).indices, e < 4 * glyphs.length)) ∧
    (∀ (metrics : DomTextMetrics) (font : BMFontJSON),
      (layoutText metrics font).glyphs.length =
        ((layoutText metrics font).lines.map (fun line =>
          resolvedCount (buildGlyphLookup font) metrics.text line.start line.endIdx)).sum) := by
  constructor
  · intro glyphs font flipY
    refine ⟨?_, ?_, ?_, ?_, ?_, ?_⟩
    · exact emitBlocks_length _ 12 (fun _ g => by simp [glyphPositionBlock]) glyphs 0
    · exact emitBlocks_length _ 8 (fun _ g => by simp [glyphUvBlock]) glyphs 0
    · exact emitBlocks_length _ 8 (fun _ g => by simp [glyphCenterBlock]) glyphs 0
    · exact emitBlocks_length _ 4 (fun _ g => by simp [glyphIndexBlock]) glyphs 0
    · exact emitBlocks_length _ 6 (fun _ g => by simp [glyphTriangleBlock]) glyphs 0
    · intro e he
      obtain ⟨j, g, _, hj, hmem⟩ := emitBlocks_mem _ glyphs 0 e he
      simp only [glyphTriangleBlock, List.mem_cons, List.not_mem_nil, or_false] at hmem
      rcases hmem with rfl | rfl | rfl | rfl | rfl | rfl <;> omega
  · intro metrics font
    simp only [layoutText]
    rw [layoutLines_length]

lemma glyphColorBlock_length (colors : Option (List ℚ)) (j : ℕ) :
    (glyphColorBlock colors j).length = 16 := by
  simp [glyphColorBlock]

lemma rebuildGlyphColors_getD (colors : Option (List ℚ)) (n i v c : ℕ)
    (hi : i < n) (hv : v < 4) (hc : c < 4) :
    (rebuildGlyphColors colors n).getD (16 * i + (4 * v + c)) 0 =
      (colors.getD []).getD (i * 4 + c) 1 := by
  rw [rebuildGlyphColors,
    flatten_map_range_getD (glyphColorBlock colors) 16 n i (4 * v + c) 0
      (glyphColorBlock_length colors) hi (by omega)]
  interval_cases v <;> interval_cases c <;> simp [glyphColorBlock]

lemma writeF32_getD (arr : List ℚ) (i : ℕ) (v : ℚ) (j : ℕ) (d : ℚ) :
    (writeF32 arr i v).getD j d =
      if i = j ∧ i < arr.length then v else arr.getD j d := by
  simp only [writeF32]
  by_cases h : i = j ∧ i < arr.length
  · obtain ⟨rfl, hlt⟩ := h
    rw [if_pos ⟨rfl, hlt⟩,
      List.getD_eq_getElem _ _ (by simpa [List.length_set] using hlt)]
    simp
  · rw [if_neg h]
    rcases Nat.lt_or_ge j arr.length with hj | hj
    · rw [List.getD_eq_getElem _ _ (by simpa [List.length_set] using hj),
        List.getD_eq_getElem _ _ hj]
      rw [List.getElem_set_ne]
      intro hij
      exact h ⟨hij, by omega⟩
    · rw [List.getD_eq_default _ _ (by simpa [List.length_set] using hj),
        List.getD_eq_default _ _ hj]

lemma writeF32_length (arr : List ℚ) (i : ℕ) (v : ℚ) :
    (writeF32 arr i v).length = arr.length := by
  simp [writeF32]

lemma rebuildGlyphColors_length (colors : Option (List ℚ)) (n : ℕ) :
    (rebuildGlyphColors colors n).length = 16 * n := by
  rw [rebuildGlyphColors, List.length_flatten]
  induction n with
  | zero => simp
  | succ n ih =>
      rw [List.range_succ]
      simp only [List.map_append, List.map_cons, List.map_nil, List.sum_append,
        List.sum_cons, List.sum_nil, ih, glyphColorBlock_length]
      omega

lemma setGlyphColors_keeps (g : GeometryState) (colors : Option (List ℚ)) :
    (g.setGlyphColors colors).position = g.position ∧
    (g.setGlyphColors colors).uv = g.uv ∧
    (g.setGlyphColors colors).center = g.center ∧
    (g.setGlyphColors colors).glyphIndices = g.glyphIndices ∧
    (g.setGlyphColors colors).index = g.index := by
  rw [GeometryState.setGlyphColors]
  cases g.glyphColorsAttr <;> exact ⟨rfl, rfl, rfl, rfl, rfl⟩

lemma setGlyphColors_attr_getD (g : GeometryState) (colors : List ℚ) (pos : ℕ)
    (hpos : pos < 16 * g.currentGlyphCount.getD 0) :
    ∃ a, (g.setGlyphColors (some colors)).glyphColorsAttr = some a ∧
      a.array.getD pos 0 =
        (rebuildGlyphColors (some colors) (g.currentGlyphCount.getD 0)).getD pos 0 := by
  rw [GeometryState.setGlyphColors]
  cases ha : g.glyphColorsAttr with
  | none => exact ⟨_, rfl, rfl⟩
  | some a0 =>
      refine ⟨_, rfl, ?_⟩
      rw [overwriteArray, List.getD_append]
      rw [rebuildGlyphColors_length]
      exact hpos

lemma setGlyphColor_in_range (st : TextState) (index : ℤ) (color : Color3)
    (opacity : ℚ) (h1 : 0 ≤ index) (h2 : index < (st.geom.glyphCount : ℤ)) :
    st.setGlyphColor index color opacity =
      { storedGlyphColors := some (st.writtenColors index color opacity)
        geom := st.geom.setGlyphColors (some (st.writtenColors index color opacity))
        usingAttributeColors := true } := by
  rw [TextState.setGlyphColor, if_neg]
  rintro (h | h) <;> omega

lemma writtenColors_length (st : TextState) (index : ℤ) (color : Color3)
    (opacity : ℚ) :
    (st.writtenColors index color opacity).length =
      (match st.storedGlyphColors with
       | none => st.geom.glyphCount * 4
       | some c => c.length) := by
  rw [TextState.writtenColors]
  cases st.storedGlyphColors <;> simp [writeF32_length]

lemma writeF32_getD_ne (arr : List ℚ) (i : ℕ) (v : ℚ) (j : ℕ) (d : ℚ)
    (h : i ≠ j) : (writeF32 arr i v).getD j d = arr.getD j d := by
  rw [writeF32_getD, if_neg]
  rintro ⟨h', -⟩
  exact h h'

lemma writeF32_getD_eq (arr : List ℚ) (i : ℕ) (v : ℚ) (d : ℚ)
    (h : i < arr.length) : (writeF32 arr i v).getD i d = v := by
  rw [writeF32_getD, if_pos ⟨rfl, h⟩]

lemma four_writes_getD_self (base : List ℚ) (i : ℕ) (r g b o : ℚ)
    (hlen : i * 4 + 4 ≤ base.length) (c : ℕ) (hc : c < 4) :
    (writeF32 (writeF32 (writeF32 (writeF32 base (i * 4) r) (i * 4 + 1) g)
        (i * 4 + 2) b) (i * 4 + 3) o).getD (i * 4 + c) 1 =
      [r, g, b, o].getD c 0 := by
  interval_cases c
  · rw [writeF32_getD_ne _ _ _ _ _ (by omega), writeF32_getD_ne _ _ _ _ _ (by omega),
      writeF32_getD_ne _ _ _ _ _ (by omega), Nat.add_zero,
      writeF32_getD_eq _ _ _ _ (by omega)]
    rfl
  · rw [writeF32_getD_ne _ _ _ _ _ (by omega), writeF32_getD_ne _ _ _ _ _ (by omega),
      writeF32_getD_eq _ _ _ _ (by rw [writeF32_length]; omega)]
    rfl
  · rw [writeF32_getD_ne _ _ _ _ _ (by omega),
      writeF32_getD_eq _ _ _ _ (by rw [writeF32_length, writeF32_length]; omega)]
    rfl
  · rw [writeF32_getD_eq _ _ _ _
      (by rw [writeF32_length, writeF32_length, writeF32_length]; omega)]
    rfl

lemma four_writes_getD_other (base : List ℚ) (i : ℕ) (r g b o : ℚ) (j c : ℕ)
    (hj : j ≠ i) (hc : c < 4) :
    (writeF32 (writeF32 (writeF32 (writeF32 base (i * 4) r) (i * 4 + 1) g)
        (i * 4 + 2) b) (i * 4 + 3) o).getD (j * 4 + c) 1 =
      base.getD (j * 4 + c) 1 := by
  rw [writeF32_getD_ne _ _ _ _ _ (by omega), writeF32_getD_ne _ _ _ _ _ (by omega),
    writeF32_getD_ne _ _ _ _ _ (by omega), writeF32_getD_ne _ _ _ _ _ (by omega)]

lemma writtenColors_getD_self (st : TextState) (index : ℤ) (color : Color3)
    (opacity : ℚ) (h1 : 0 ≤ index) (h2 : index < (st.geom.glyphCount : ℤ))
    (hcov : ∀ l, st.storedGlyphColors = some l → index.toNat * 4 + 4 ≤ l.length)
    (c : ℕ) (hc : c < 4) :
    (st.writtenColors index color opacity).getD (index.toNat * 4 + c) 1 =
      [color.r, color.g, color.b, opacity].getD c 0 := by
  rw [TextState.writtenColors]
  cases hs : st.storedGlyphColors with
  | none =>
      exact four_writes_getD_self _ _ _ _ _ _
        (by simp only [List.length_replicate]; omega) c hc
  | some l => exact four_writes_getD_self _ _ _ _ _ _ (hcov l hs) c hc

lemma writtenColors_getD_other (st : TextState) (index : ℤ) (color : Color3)
    (opacity : ℚ) (j c : ℕ) (hj : j ≠ index.toNat) (hc : c < 4) :
    (st.writtenColors index color opacity).getD (j * 4 + c) 1 =
      (match st.storedGlyphColors with
       | none => List.replicate (st.geom.glyphCount * 4) (1 : ℚ)
       | some l => l).getD (j * 4 + c) 1 := by
  rw [TextState.writtenColors]
  cases hs : st.storedGlyphColors with
  | none => exact four_writes_getD_other _ _ _ _ _ _ _ _ hj hc
  | some l => exact four_writes_getD_other _ _ _ _ _ _ _ _ hj hc

section LayoutLemmas

variable (glyphLookup : ℕ → Option BMFontChar) (kerningLookup : ℕ → ℕ → Option ℚ)
  (fontSizeScale letterSpacing topLineY yOffset : ℚ) (text : List ℕ) (stop : ℕ)

lemma lineWalk_lineIndex (lineIndex : ℕ) :
    ∀ (fuel i : ℕ) (penX lineWidth : ℚ) (glyphIndex : ℕ)
      (lastGlyph : Option BMFontChar),
      ∀ g ∈ (lineWalk glyphLookup kerningLookup fontSizeScale letterSpacing topLineY
        yOffset lineIndex text stop fuel i penX lineWidth glyphIndex lastGlyph).1,
        g.lineIndex = lineIndex := by
  intro fuel
  induction fuel with
  | zero => intro i penX lineWidth glyphIndex lastGlyph g hg; simp [lineWalk] at hg
  | succ fuel ih =>
      intro i penX lineWidth glyphIndex lastGlyph g hg
      rw [lineWalk] at hg
      by_cases hi : i < stop
      · rw [if_pos hi] at hg
        cases hl : glyphLookup (text.getD i 0) with
        | none =>
            rw [hl] at hg
            exact ih (i + 1) penX lineWidth glyphIndex none g hg
        | some glyph =>
            rw [hl] at hg
            simp only [List.mem_cons] at hg
            rcases hg with rfl | hg
            · rfl
            · exact ih (i + 1) _ _ (glyphIndex + 1) (some glyph) g hg
      · rw [if_neg hi] at hg
        simp at hg

lemma lineWalk_lineWidth_foldl (lineIndex : ℕ) :
    ∀ (fuel i : ℕ) (penX lineWidth : ℚ) (glyphIndex : ℕ)
      (lastGlyph : Option BMFontChar),
      (lineWalk glyphLookup kerningLookup fontSizeScale letterSpacing topLineY yOffset
        lineIndex text stop fuel i penX lineWidth glyphIndex lastGlyph).2.1 =
      (lineWalk glyphLookup kerningLookup fontSizeScale letterSpacing topLineY yOffset
        lineIndex text stop fuel i penX lineWidth glyphIndex lastGlyph).1.foldl
        (fun w g => max w (g.x + g.width)) lineWidth := by
  intro fuel
  induction fuel with
  | zero => intro i penX lineWidth glyphIndex lastGlyph; simp [lineWalk]
  | succ fuel ih =>
      intro i penX lineWidth glyphIndex lastGlyph
      rw [lineWalk]
      by_cases hi : i < stop
      · rw [if_pos hi]
        cases hl : glyphLookup (text.getD i 0) with
        | none => exact ih (i + 1) penX lineWidth glyphIndex none
        | some glyph => simpa using ih (i + 1) _ _ (glyphIndex + 1) (some glyph)
      · rw [if_neg hi]
        rfl

lemma lineWalk_nextGidx (lineIndex : ℕ) :
    ∀ (fuel i : ℕ) (penX lineWidth : ℚ) (glyphIndex : ℕ)
      (lastGlyph : Option BMFontChar),
      (lineWalk glyphLookup kerningLookup fontSizeScale letterSpacing topLineY yOffset
        lineIndex text stop fuel i penX lineWidth glyphIndex lastGlyph).2.2 =
      glyphIndex +
        (lineWalk glyphLookup kerningLookup fontSizeScale letterSpacing topLineY yOffset
          lineIndex text stop fuel i penX lineWidth glyphIndex lastGlyph).1.length := by
  intro fuel
  induction fuel with
  | zero => intro i penX lineWidth glyphIndex lastGlyph; simp [lineWalk]
  | succ fuel ih =>
      intro i penX lineWidth glyphIndex lastGlyph
      rw [lineWalk]
      by_cases hi : i < stop
      · rw [if_pos hi]
        cases hl : glyphLookup (text.getD i 0) with
        | none => exact ih (i + 1) penX lineWidth glyphIndex none
        | some glyph =>
            simp only [List.length_cons]
            rw [ih (i + 1) _ _ (glyphIndex + 1) (some glyph)]
            omega
      · rw [if_neg hi]
        simp

end LayoutLemmas

section MeasureLemmas

variable (glyphLookup : ℕ → Option BMFontChar) (kerningLookup : ℕ → ℕ → Option ℚ)
  (fontSizeScale widthIncError letterSpacing : ℚ) (text : List ℕ) (stop : ℕ)

lemma measureLoop_start_le :
    ∀ (fuel i : ℕ) (penX maxX : ℚ) (lastGlyph : Option BMFontChar),
      i ≤ (measureLoop glyphLookup kerningLookup fontSizeScale widthIncError
        letterSpacing text stop fuel i penX maxX lastGlyph).1 := by
  intro fuel
  induction fuel with
  | zero => intro i penX maxX lastGlyph; simp [measureLoop]
  | succ fuel ih =>
      intro i penX maxX lastGlyph
      rw [measureLoop]
      by_cases hi : i < stop
      · rw [if_pos hi]
        cases hl : glyphLookup (text.getD i 0) with
        | none => exact le_trans (Nat.le_succ i) (ih (i + 1) penX maxX none)
        | some glyph =>
            dsimp only
            split
            · exact le_refl i
            · exact le_trans (Nat.le_succ i) (ih (i + 1) _ _ (some glyph))
      · rw [if_neg hi]

lemma lineWalk_stop (fontSizeScaleW letterSpacingW topLineY yOffset : ℚ)
    (lineIndex : ℕ) (stopW : ℕ) :
    ∀ (fuel i : ℕ) (penX lineWidth : ℚ) (glyphIndex : ℕ)
      (lastGlyph : Option BMFontChar), stopW ≤ i →
      lineWalk glyphLookup kerningLookup fontSizeScaleW letterSpacingW topLineY yOffset
        lineIndex text stopW fuel i penX lineWidth glyphIndex lastGlyph =
        ([], lineWidth, glyphIndex) := by
  intro fuel
  cases fuel with
  | zero => intro i penX lineWidth glyphIndex lastGlyph h; rfl
  | succ fuel =>
      intro i penX lineWidth glyphIndex lastGlyph h
      rw [lineWalk, if_neg (by omega)]

lemma walk_width_le_of_no_break (topLineY yOffset : ℚ) (lineIndex : ℕ) (e : ℕ) :
    ∀ (fuelM i : ℕ) (penX maxX : ℚ) (lastGlyph : Option BMFontChar),
      stop - i ≤ fuelM →
      e ≤ (measureLoop glyphLookup kerningLookup fontSizeScale widthIncError
        letterSpacing text stop fuelM i penX maxX lastGlyph).1 →
      ∀ (fuelW : ℕ) (lineWidth : ℚ) (glyphIndex : ℕ),
        (lineWalk glyphLookup kerningLookup fontSizeScale letterSpacing topLineY yOffset
          lineIndex text e fuelW i penX lineWidth glyphIndex lastGlyph).2.1 ≤
        max lineWidth widthIncError := by
  intro fuelM
  induction fuelM with
  | zero =>
      intro i penX maxX lastGlyph hfuel he fuelW lineWidth glyphIndex
      by_cases hie : i < e
      · have hz : (measureLoop glyphLookup kerningLookup fontSizeScale widthIncError
            letterSpacing text stop 0 i penX maxX lastGlyph).1 = i := rfl
        omega
      · rw [lineWalk_stop glyphLookup kerningLookup text fontSizeScale letterSpacing
          topLineY yOffset lineIndex e fuelW i penX lineWidth glyphIndex lastGlyph
          (by omega)]
        exact le_max_left _ _
  | succ fuelM ih =>
      intro i penX maxX lastGlyph hfuel he fuelW lineWidth glyphIndex
      by_cases hie : i < e
      · have hiL : i < stop := by
          by_contra hL
          rw [measureLoop, if_neg hL] at he
          omega
        cases fuelW with
        | zero => exact le_max_left _ _
        | succ fuelW =>
            rw [measureLoop, if_pos hiL] at he
            rw [lineWalk, if_pos hie]
            cases hl : glyphLookup (text.getD i 0) with
            | none =>
                rw [hl] at he
                exact ih (i + 1) penX maxX none (by omega) he fuelW lineWidth glyphIndex
            | some glyph =>
                rw [hl] at he
                dsimp only at he ⊢
                by_cases hright : penX + getKerningAmount kerningLookup lastGlyph
                    (some glyph) + glyph.xoffset * fontSizeScale +
                    glyph.width * fontSizeScale > widthIncError
                · rw [if_pos hright] at he
                  dsimp only at he
                  omega
                · rw [if_neg hright] at he
                  rw [add_assoc (penX + getKerningAmount kerningLookup lastGlyph
                    (some glyph)) (glyph.xadvance * fontSizeScale) letterSpacing]
                  have hih := ih (i + 1) _ _ (some glyph) (by omega) he fuelW
                    (max lineWidth (penX + getKerningAmount kerningLookup lastGlyph
                      (some glyph) + glyph.xoffset * fontSizeScale +
                      glyph.width * fontSizeScale)) (glyphIndex + 1)
                  refine le_trans hih ?_
                  push_neg at hright
                  exact max_le (max_le (le_max_left _ _)
                    (le_trans hright (le_max_right _ _))) (le_max_right _ _)
      · rw [lineWalk_stop glyphLookup kerningLookup text fontSizeScale letterSpacing
          topLineY yOffset lineIndex e fuelW i penX lineWidth glyphIndex lastGlyph
          (by omega)]
        exact le_max_left _ _

lemma measureLoop_zero_progress (i : ℕ) (hi : i < stop) (fuel : ℕ)
    (hz : (measureLoop glyphLookup kerningLookup fontSizeScale widthIncError
      letterSpacing text stop (fuel + 1) i 0 0 none).1 = i) :
    ∃ g, glyphLookup (text.getD i 0) = some g ∧
      widthIncError <
        0 + getKerningAmount kerningLookup none (some g) + g.xoffset * fontSizeScale +
          g.width * fontSizeScale := by
  rw [measureLoop, if_pos hi] at hz
  cases hl : glyphLookup (text.getD i 0) with
  | none =>
      rw [hl] at hz
      dsimp only at hz
      have := measureLoop_start_le glyphLookup kerningLookup fontSizeScale widthIncError
        letterSpacing text stop fuel (i + 1) 0 0 none
      omega
  | some glyph =>
      rw [hl] at hz
      dsimp only at hz
      by_cases hright : 0 + getKerningAmount kerningLookup none (some glyph) +
          glyph.xoffset * fontSizeScale + glyph.width * fontSizeScale > widthIncError
      · exact ⟨glyph, rfl, hright⟩
      · rw [if_neg hright] at hz
        have := measureLoop_start_le glyphLookup kerningLookup fontSizeScale widthIncError
          letterSpacing text stop fuel (i + 1)
          (0 + getKerningAmount kerningLookup none (some glyph) +
            (glyph.xadvance * fontSizeScale + letterSpacing))
          (0 ⊔ (0 + getKerningAmount kerningLookup none (some glyph) +
            glyph.xoffset * fontSizeScale + glyph.width * fontSizeScale))
          (some glyph)
        omega

lemma lastWsIn_bounds (start : ℕ) :
    ∀ (e j : ℕ), lastWsIn text start e = some j → start < j ∧ j ≤ e := by
  intro e
  induction e with
  | zero => intro j h; simp [lastWsIn] at h
  | succ e ih =>
      intro j h
      rw [lastWsIn] at h
      by_cases hc : start < e + 1 ∧ isWhitespaceCode (text.getD (e + 1) 0)
      · rw [if_pos hc] at h
        obtain rfl : e + 1 = j := Option.some_injective _ h
        omega
      · rw [if_neg hc] at h
        have := ih j h
        omega

lemma greedyGo_line_bound (measure : ℕ → ℕ → ℚ → MeasureResult) (width : ℚ) :
    ∀ (fuel start : ℕ), ∀ l ∈ greedyGo measure text width fuel start,
      l.endIdx ≤ (measure l.start text.length width).endIdx ∨
      ((measure l.start text.length width).endIdx = l.start ∧
        l.endIdx = l.start + 1 ∧ l.start < text.length) := by
  intro fuel
  induction fuel with
  | zero => intro start l hl; simp [greedyGo] at hl
  | succ fuel ih =>
      intro start l hl
      rw [greedyGo] at hl
      by_cases h1 : start < text.length
      · rw [if_pos h1] at hl
        dsimp only at hl
        by_cases h2 : skipWs text start < text.length
        · rw [if_pos h2] at hl
          by_cases h3 : (measure (skipWs text start) text.length width).endIdx ≥
              text.length
          · rw [if_pos h3] at hl
            simp only [List.mem_singleton] at hl
            subst hl
            exact Or.inl h3
          · rw [if_neg h3] at hl
            by_cases h4 : (measure (skipWs text start) text.length width).endIdx =
                skipWs text start
            · rw [if_pos h4] at hl
              rcases List.mem_cons.mp hl with rfl | hl'
              · exact Or.inr ⟨h4, rfl, h2⟩
              · exact ih _ l hl'
            · rw [if_neg h4] at hl
              cases hws : lastWsIn text (skipWs text start)
                  (measure (skipWs text start) text.length width).endIdx with
              | some j =>
                  rw [hws] at hl
                  rcases List.mem_cons.mp hl with rfl | hl'
                  · exact Or.inl (lastWsIn_bounds text (skipWs text start) _ j hws).2
                  · exact ih _ l hl'
              | none =>
                  rw [hws] at hl
                  rcases List.mem_cons.mp hl with rfl | hl'
                  · exact Or.inl (le_refl _)
                  · exact ih _ l hl'
        · rw [if_neg h2] at hl
          simp at hl
      · rw [if_neg h1] at hl
        simp at hl

end MeasureLemmas

section LayoutLinesLemmas

variable (glyphLookup : ℕ → Option BMFontChar) (kerningLookup : ℕ → ℕ → Option ℚ)
  (fontSizeScale letterSpacing fontLineHeight yOffset widthPx : ℚ)
  (textAlign : TextAlign) (text : List ℕ)

lemma layoutLines_lineIndex_ge :
    ∀ (lines : List Line) (k0 g0 : ℕ),
      ∀ g ∈ layoutLines glyphLookup kerningLookup fontSizeScale letterSpacing
        fontLineHeight yOffset widthPx textAlign text lines k0 g0, k0 ≤ g.lineIndex := by
  intro lines
  induction lines with
  | nil => intro k0 g0 g hg; simp [layoutLines] at hg
  | cons line rest ih =>
      intro k0 g0 g hg
      simp only [layoutLines, List.mem_append] at hg
      rcases hg with hg | hg
      · obtain ⟨g', hg', rfl⟩ := List.mem_map.mp hg
        have hli := lineWalk_lineIndex glyphLookup kerningLookup fontSizeScale
          letterSpacing _ yOffset text line.endIdx k0 line.endIdx line.start 0 0 g0 none
          g' hg'
        simp [hli]
      · exact le_trans (Nat.le_succ k0) (ih (k0 + 1) _ g hg)

lemma layoutLines_filter :
    ∀ (lines : List Line) (k0 g0 k : ℕ) (line : Line),
      lines.get? k = some line →
      (layoutLines glyphLookup kerningLookup fontSizeScale letterSpacing fontLineHeight
        yOffset widthPx textAlign text lines k0 g0).filter
          (fun g => g.lineIndex == k0 + k) =
        (lineWalk glyphLookup kerningLookup fontSizeScale letterSpacing
            (-(((k0 + k : ℕ) : ℚ) * fontLineHeight)) yOffset (k0 + k) text line.endIdx
            line.endIdx line.start 0 0
            (g0 + glyphIndexBefore glyphLookup text lines k) none).1.map (fun g =>
          { g with x := g.x + (alignOffset textAlign widthPx
              (lineWalk glyphLookup kerningLookup fontSizeScale letterSpacing
                (-(((k0 + k : ℕ) : ℚ) * fontLineHeight)) yOffset (k0 + k) text
                line.endIdx line.endIdx line.start 0 0
                (g0 + glyphIndexBefore glyphLookup text lines k) none).2.1) }) := by
  intro lines
  induction lines with
  | nil => intro k0 g0 k line hget; simp at hget
  | cons line' rest ih =>
      intro k0 g0 k line hget
      cases k with
      | zero =>
          obtain rfl : line' = line := by simpa using hget
          simp only [layoutLines, List.filter_append]
          rw [List.filter_eq_self.mpr, List.filter_eq_nil_iff.mpr, List.append_nil]
          · simp [glyphIndexBefore]
          · intro g hg
            have hge := layoutLines_lineIndex_ge glyphLookup kerningLookup fontSizeScale
              letterSpacing fontLineHeight yOffset widthPx textAlign text rest (k0 + 1) _
              g hg
            simp only [Nat.add_zero, beq_iff_eq]
            omega
          · intro g hg
            obtain ⟨g', hg', rfl⟩ := List.mem_map.mp hg
            have hli := lineWalk_lineIndex glyphLookup kerningLookup fontSizeScale
              letterSpacing _ yOffset text line'.endIdx k0 line'.endIdx line'.start 0 0 g0
              none g' hg'
            simp [hli]
      | succ k' =>
          have hk : k0 + (k' + 1) = (k0 + 1) + k' := by omega
          simp only [layoutLines, List.filter_append]
          rw [List.filter_eq_nil_iff.mpr, List.nil_append]
          · have hget' : rest.get? k' = some line := by simpa using hget
            have hnext := lineWalk_nextGidx glyphLookup kerningLookup fontSizeScale
              letterSpacing (-((k0 : ℚ) * fontLineHeight)) yOffset text line'.endIdx k0
              line'.endIdx line'.start 0 0 g0 none
            have hlen := lineWalk_length glyphLookup kerningLookup fontSizeScale
              letterSpacing (-((k0 : ℚ) * fontLineHeight)) yOffset k0 text line'.endIdx
              line'.endIdx line'.start (by omega) 0 0 g0 none
            have hbefore : g0 + glyphIndexBefore glyphLookup text (line' :: rest) (k' + 1) =
                (g0 + resolvedCount glyphLookup text line'.start line'.endIdx) +
                  glyphIndexBefore glyphLookup text rest k' := by
              simp only [glyphIndexBefore, List.take_succ_cons, List.map_cons,
                List.sum_cons]
              omega
            rw [hk, hbefore]
            have := ih (k0 + 1)
              (g0 + resolvedCount glyphLookup text line'.start line'.endIdx) k' line hget'
            rw [← this]
            congr 1
            rw [hnext, hlen]
          · intro g hg
            obtain ⟨g', hg', rfl⟩ := List.mem_map.mp hg
            have hli := lineWalk_lineIndex glyphLookup kerningLookup fontSizeScale
              letterSpacing _ yOffset text line'.endIdx k0 line'.endIdx line'.start 0 0 g0
              none g' hg'
            simp [hli]

end LayoutLinesLemmas

/-- Claim C4 — the returned block width is the configured wrap width and
the block height is the effective line height (the style's line height,
falling back to the font's) times the line count; and every line's glyphs
are the line's unaligned walk shifted by one uniform x-offset determined
by the horizontal alignment out of the line width, which is the maximum
placed right edge (`max` fold over `x + width` from 0); the offset table
is 0 for left/start, `(width − lineWidth)/2` for center and
`width − lineWidth` for right/end. -/
theorem claim_C4_alignment_and_block :
    ∀ (metrics : DomTextMetrics) (font : BMFontJSON),
      (layoutText metrics font).width = metrics.widthPx ∧
      (layoutText metrics font).height =
        (if metrics.fontCssStyles.lineHeightPx = 0 then font.commonLineHeight
         else metrics.fontCssStyles.lineHeightPx) *
          ((layoutText metrics font).lines.length : ℚ) ∧
      (∀ w lw : ℚ, alignOffset .left w lw = 0 ∧ alignOffset .start w lw = 0 ∧
        alignOffset .center w lw = (w - lw) / 2 ∧ alignOffset .right w lw = w - lw ∧
        alignOffset .endAlign w lw = w - lw) ∧
      (∀ (k : ℕ) (line : Line), (layoutText metrics font).lines.get? k = some line →
        (layoutText metrics font).glyphs.filter (fun g => g.lineIndex == k) =
          (lineWalk (buildGlyphLookup font) (buildKerningLookup font)
              (metrics.fontCssStyles.fontSize / font.infoSize)
              metrics.fontCssStyles.letterSpacingPx
              (-((k : ℚ) * (if metrics.fontCssStyles.lineHeightPx = 0 then
                  font.commonLineHeight else metrics.fontCssStyles.lineHeightPx)))
              (font.commonBase * (metrics.fontCssStyles.fontSize / font.infoSize) -
                metrics.canvasRenderMeasurements.baselineOffsetTop)
              k metrics.text line.endIdx line.endIdx line.start 0 0
              (glyphIndexBefore (buildGlyphLookup font) metrics.text
                (layoutText metrics font).lines k) none).1.map (fun g =>
            { g with x := g.x + (alignOffset metrics.fontCssStyles.textAlign
                metrics.widthPx
                (lineWalk (buildGlyphLookup font) (buildKerningLookup font)
                  (metrics.fontCssStyles.fontSize / font.infoSize)
                  metrics.fontCssStyles.letterSpacingPx
                  (-((k : ℚ) * (if metrics.fontCssStyles.lineHeightPx = 0 then
                      font.commonLineHeight else metrics.fontCssStyles.lineHeightPx)))
                  (font.commonBase * (metrics.fontCssStyles.fontSize / font.infoSize) -
                    metrics.canvasRenderMeasurements.baselineOffsetTop)
                  k metrics.text line.endIdx line.endIdx line.start 0 0
                  (glyphIndexBefore (buildGlyphLookup font) metrics.text
                    (layoutText metrics font).lines k) none).2.1) }) ∧
          (lineWalk (buildGlyphLookup font) (buildKerningLookup font)
              (metrics.fontCssStyles.fontSize / font.infoSize)
              metrics.fontCssStyles.letterSpacingPx
              (-((k : ℚ) * (if metrics.fontCssStyles.lineHeightPx = 0 then
                  font.commonLineHeight else metrics.fontCssStyles.lineHeightPx)))
              (font.commonBase * (metrics.fontCssStyles.fontSize / font.infoSize) -
                metrics.canvasRenderMeasurements.baselineOffsetTop)
              k metrics.text line.endIdx line.endIdx line.start 0 0
              (glyphIndexBefore (buildGlyphLookup font) metrics.text
                (layoutText metrics font).lines k) none).2.1 =
            (lineWalk (buildGlyphLookup font) (buildKerningLookup font)
              (metrics.fontCssStyles.fontSize / font.infoSize)
              metrics.fontCssStyles.letterSpacingPx
              (-((k : ℚ) * (if metrics.fontCssStyles.lineHeightPx = 0 then
                  font.commonLineHeight else metrics.fontCssStyles.lineHeightPx)))
              (font.commonBase * (metrics.fontCssStyles.fontSize / font.infoSize) -
                metrics.canvasRenderMeasurements.baselineOffsetTop)
              k metrics.text line.endIdx line.endIdx line.start 0 0
              (glyphIndexBefore (buildGlyphLookup font) metrics.text
                (layoutText metrics font).lines k) none).1.foldl
              (fun w g => max w (g.x + g.width)) 0) := by
  intro metrics font
  refine ⟨rfl, rfl, ?_, ?_⟩
  · intro w lw
    exact ⟨rfl, rfl, rfl, rfl, rfl⟩
  · intro k line hget
    constructor
    · have := layoutLines_filter (buildGlyphLookup font) (buildKerningLookup font)
        (metrics.fontCssStyles.fontSize / font.infoSize)
        metrics.fontCssStyles.letterSpacingPx
        (if metrics.fontCssStyles.lineHeightPx = 0 then font.commonLineHeight
         else metrics.fontCssStyles.lineHeightPx)
        (font.commonBase * (metrics.fontCssStyles.fontSize / font.infoSize) -
          metrics.canvasRenderMeasurements.baselineOffsetTop)
        metrics.widthPx metrics.fontCssStyles.textAlign metrics.text
        (layoutText metrics font).lines 0 0 k line hget
      simpa using this
    · exact lineWalk_lineWidth_foldl (buildGlyphLookup font) (buildKerningLookup font)
        _ _ _ _ _ _ k _ _ _ _ _ none

/-- Witness for claim C4: the single `nowrap` demonstration line covers
the whole text, the block width is the configured wrap width, and the
line's filtered glyphs are exactly the 5 placed by the line walk. -/
theorem claim_C4_alignment_and_block_witness :
    (layoutText demoMetricsNowrap demoFont).lines.get? 0 = some ⟨0, 5⟩ ∧
    (layoutText demoMetricsNowrap demoFont).width = demoMetricsNowrap.widthPx ∧
    ((layoutText demoMetricsNowrap demoFont).glyphs.filter
      (fun g => g.lineIndex == 0)).length = 5 := by
  refine ⟨by decide, (claim_C4_alignment_and_block demoMetricsNowrap demoFont).1, ?_⟩
  have h := ((claim_C4_alignment_and_block demoMetricsNowrap demoFont).2.2.2 0 ⟨0, 5⟩
    (by decide)).1
  rw [h, List.length_map]
  decide

/-- Counterexample to claim C9 as stated: on a two-glyph text whose
stored raw color array covers only glyph 0, the in-range call
`setGlyphColor(1, red, 1)` does NOT give glyph 1 the new RGBA values —
the typed-array write at offsets 4..7 is dropped and the rebuilt buffer
leaves glyph 1 opaque white (green component 1 instead of the requested
0). -/
theorem claim_C9_counterexample_short_array :
    (0 : ℤ) ≤ 1 ∧ (1 : ℤ) < (demoShortColorState.geom.glyphCount : ℤ) ∧
    ((((demoShortColorState.setGlyphColor 1 ⟨1, 0, 0⟩ 1).geom.glyphColorsAttr).map
        Attr.array).getD []).getD (16 * 1 + 1) 0 = 1 ∧
    ¬ ((((demoShortColorState.setGlyphColor 1 ⟨1, 0, 0⟩ 1).geom.glyphColorsAttr).map
        Attr.array).getD []).getD (16 * 1 + 1) 0 = 0 := by
  decide

/-- Claim C9 (amended) — `setGlyphColor` with an index outside
`[0, glyphCount)` is a no-op returning the state unchanged; an in-range
index mutates only the color attribute, leaving the position, UV, center,
glyph-index and index attributes untouched; the indexed glyph's 4
vertices receive the new RGBA values provided the stored color array
covers the index (always true when no array was stored, since a fresh
opaque-white array of length `4 × glyphCount` is allocated first); and,
when the current color attribute is in sync with the stored array, every
other glyph's vertices are left unchanged. -/
theorem claim_C9_amended_setGlyphColor :
    (∀ (st : TextState) (index : ℤ) (color : Color3) (opacity : ℚ),
      index < 0 ∨ (st.geom.glyphCount : ℤ) ≤ index →
      st.setGlyphColor index color opacity = st) ∧
    (∀ (st : TextState) (index : ℤ) (color : Color3) (opacity : ℚ),
      0 ≤ index → index < (st.geom.glyphCount : ℤ) →
      (st.setGlyphColor index color opacity).geom.position = st.geom.position ∧
      (st.setGlyphColor index color opacity).geom.uv = st.geom.uv ∧
      (st.setGlyphColor index color opacity).geom.center = st.geom.center ∧
      (st.setGlyphColor index color opacity).geom.glyphIndices = st.geom.glyphIndices ∧
      (st.setGlyphColor index color opacity).geom.index = st.geom.index) ∧
    (∀ (st : TextState) (index : ℤ) (color : Color3) (opacity : ℚ),
      0 ≤ index → index < (st.geom.glyphCount : ℤ) →
      (∀ l, st.storedGlyphColors = some l → index.toNat * 4 + 4 ≤ l.length) →
      ∃ a, (st.setGlyphColor index color opacity).geom.glyphColorsAttr = some a ∧
        ∀ v c : ℕ, v < 4 → c < 4 →
          a.array.getD (16 * index.toNat + (4 * v + c)) 0 =
            [color.r, color.g, color.b, opacity].getD c 0) ∧
    (∀ (st : TextState) (index : ℤ) (color : Color3) (opacity : ℚ) (a0 : Attr ℚ),
      0 ≤ index → index < (st.geom.glyphCount : ℤ) →
      st.geom.glyphColorsAttr = some a0 →
      a0.array = rebuildGlyphColors st.storedGlyphColors st.geom.glyphCount →
      ∃ a, (st.setGlyphColor index color opacity).geom.glyphColorsAttr = some a ∧
        ∀ j v c : ℕ, j < st.geom.glyphCount → j ≠ index.toNat → v < 4 → c < 4 →
          a.array.getD (16 * j + (4 * v + c)) 0 =
            a0.array.getD (16 * j + (4 * v + c)) 0) := by
  refine ⟨?_, ?_, ?_, ?_⟩
  · intro st index color opacity h
    rw [TextState.setGlyphColor, if_pos h]
  · intro st index color opacity h1 h2
    rw [setGlyphColor_in_range st index color opacity h1 h2]
    exact setGlyphColors_keeps st.geom _
  · intro st index color opacity h1 h2 hcov
    rw [setGlyphColor_in_range st index color opacity h1 h2]
    have hcount : st.geom.currentGlyphCount.getD 0 = st.geom.glyphCount := rfl
    have hi : index.toNat < st.geom.glyphCount := by omega
    obtain ⟨a, ha, hval⟩ := setGlyphColors_attr_getD st.geom
      (st.writtenColors index color opacity) (16 * index.toNat + (4 * 0 + 0))
      (by rw [hcount]; omega)
    refine ⟨a, ha, ?_⟩
    intro v c hv hc
    obtain ⟨a', ha', hval'⟩ := setGlyphColors_attr_getD st.geom
      (st.writtenColors index color opacity) (16 * index.toNat + (4 * v + c))
      (by rw [hcount]; omega)
    rw [ha] at ha'
    obtain rfl : a = a' := Option.some_injective _ ha'
    rw [hval', hcount, rebuildGlyphColors_getD _ _ _ _ _ hi hv hc]
    exact writtenColors_getD_self st index color opacity h1 h2 hcov c hc
  · intro st index color opacity a0 h1 h2 ha0 hsync
    rw [setGlyphColor_in_range st index color opacity h1 h2]
    have hcount : st.geom.currentGlyphCount.getD 0 = st.geom.glyphCount := rfl
    obtain ⟨a, ha, _⟩ := setGlyphColors_attr_getD st.geom
      (st.writtenColors index color opacity) 0
      (by rw [hcount]; omega)

    refine ⟨a, ha, ?_⟩
    intro j v c hj hji hv hc
    obtain ⟨a', ha', hval'⟩ := setGlyphColors_attr_getD st.geom
      (st.writtenColors index color opacity) (16 * j + (4 * v + c))
      (by rw [hcount]; omega)
    rw [ha] at ha'
    obtain rfl : a = a' := Option.some_injective _ ha'
    rw [hval', hcount, rebuildGlyphColors_getD _ _ _ _ _ hj hv hc, hsync,
      rebuildGlyphColors_getD _ _ _ _ _ hj hv hc]
    have hw := writtenColors_getD_other st index color opacity j c hji hc
    have hrep : ∀ (n k : ℕ), (List.replicate n (1 : ℚ)).getD k 1 = 1 := by
      intro n k
      rcases Nat.lt_or_ge k n with h | h
      · rw [List.getD_eq_getElem _ _ (by simpa using h), List.getElem_replicate]
      · rw [List.getD_eq_default _ _ (by simpa using h)]
    cases hs : st.storedGlyphColors with
    | none =>
        simp only [hs] at hw ⊢
        simp only [Option.getD_some, Option.getD_none]
        rw [hw, hrep]
        simp [List.getD]
    | some l =>
        simp only [hs] at hw ⊢
        simp only [Option.getD_some]
        rw [hw]

/-- Witness for amended claim C9: on the short-color-array state,
`setGlyphColor 5` (out of range) is a no-op, and `setGlyphColor 0` (in
range, covered by the stored array) leaves the index attribute untouched
while glyph 0's red component becomes 1. -/
theorem claim_C9_amended_setGlyphColor_witness :
    demoShortColorState.setGlyphColor 5 ⟨1, 0, 0⟩ 1 = demoShortColorState ∧
    (demoShortColorState.setGlyphColor 0 ⟨1, 0, 0⟩ 1).geom.index =
      demoShortColorState.geom.index ∧
    ((((demoShortColorState.setGlyphColor 0 ⟨1, 0, 0⟩ 1).geom.glyphColorsAttr).map
        Attr.array).getD []).getD 0 0 = 1 := by
  refine ⟨claim_C9_amended_setGlyphColor.1 demoShortColorState 5 ⟨1, 0, 0⟩ 1 (by decide),
    (claim_C9_amended_setGlyphColor.2.1 demoShortColorState 0 ⟨1, 0, 0⟩ 1 (by decide)
      (by decide)).2.2.2.2, ?_⟩
  obtain ⟨a, ha, hval⟩ := claim_C9_amended_setGlyphColor.2.2.1 demoShortColorState 0
    ⟨1, 0, 0⟩ 1 (by decide) (by decide)
    (by
      intro l hl
      rw [show demoShortColorState.storedGlyphColors =
        some [1/2, 1/2, 1/2, 1] from rfl] at hl
      obtain rfl : _ = l := Option.some_injective _ hl
      decide)
  rw [ha]
  simpa using hval 0 0 (by decide) (by decide)

/-- Claim C10 — `MSDFTextGeometry.setGlyphColors` rebuilds the color
buffer so that every component reads `colors?[4i + c] ?? 1.0`: with a raw
array shorter than `4 × glyphCount` the components beyond the array's end
are filled with `1.0` (the `getD … 1` default) rather than cycled, a
`null` input fills every component of every glyph's 4 vertices with
`1.0`, and the rebuilt buffer is what the method writes into the color
attribute. -/
theorem claim_C10_short_array_fill :
    (∀ (colors : List ℚ) (n i v c : ℕ), i < n → v < 4 → c < 4 →
      (rebuildGlyphColors (some colors) n).getD (16 * i + (4 * v + c)) 0 =
        colors.getD (i * 4 + c) 1) ∧
    (∀ n : ℕ, rebuildGlyphColors none n = List.replicate (16 * n) 1) ∧
    (∀ (st : GeometryState) (colors : Option (List ℚ)) (a : Attr ℚ),
      st.glyphColorsAttr = some a →
      (st.setGlyphColors colors).glyphColorsAttr =
        some ⟨a.id, overwriteArray a.array
          (rebuildGlyphColors colors (st.currentGlyphCount.getD 0))⟩) := by
  refine ⟨?_, ?_, ?_⟩
  · intro colors n i v c hi hv hc
    exact rebuildGlyphColors_getD (some colors) n i v c hi hv hc
  · intro n
    have hb : (fun i => glyphColorBlock none i) = fun _ => List.replicate 16 (1 : ℚ) := by
      funext i
      simp [glyphColorBlock, List.replicate]
    rw [rebuildGlyphColors, hb, replicate_block_flatten]
  · intro st colors a ha
    simp [GeometryState.setGlyphColors, ha]

/-- Claim C8 — for every non-empty color list or `{color, opacity}` list
shorter than (or longer than) the glyph count, `MSDFText.processGlyphColors`
normalizes glyph `i` to the entry at `i % length`: plain colors get alpha
`1`, pairs get `opacity ?? 1`. -/
theorem claim_C8_color_cycling :
    (∀ (es : List Color3) (n i : ℕ), es ≠ [] → i < n →
      ∀ res, processGlyphColors (some (.colors es)) n = some res →
        (res.drop (4 * i)).take 4 =
          [(es.getD (i % es.length) ⟨0, 0, 0⟩).r,
           (es.getD (i % es.length) ⟨0, 0, 0⟩).g,
           (es.getD (i % es.length) ⟨0, 0, 0⟩).b, 1]) ∧
    (∀ (es : List (Color3 × Option ℚ)) (n i : ℕ), es ≠ [] → i < n →
      ∀ res, processGlyphColors (some (.pairs es)) n = some res →
        (res.drop (4 * i)).take 4 =
          [(es.getD (i % es.length) (⟨0, 0, 0⟩, none)).1.r,
           (es.getD (i % es.length) (⟨0, 0, 0⟩, none)).1.g,
           (es.getD (i % es.length) (⟨0, 0, 0⟩, none)).1.b,
           (es.getD (i % es.length) (⟨0, 0, 0⟩, none)).2.getD 1]) := by
  constructor
  · intro es n i hne hi res hres
    rw [processGlyphColors, if_pos (List.length_pos.mpr hne)] at hres
    obtain rfl : _ = res := Option.some_injective _ hres
    exact flatten_map_range_extract _ 4 n i (fun j => by simp) hi
  · intro es n i hne hi res hres
    rw [processGlyphColors, if_pos (List.length_pos.mpr hne)] at hres
    obtain rfl : _ = res := Option.some_injective _ hres
    exact flatten_map_range_extract _ 4 n i (fun j => by simp) hi

/-- Witness for claim C8: the single-entry red `{color, opacity: 1}` list
applied to a 5-glyph text colors glyph 3 red with alpha 1. -/
theorem claim_C8_color_cycling_witness :
    (((processGlyphColors (some (.pairs [(⟨1, 0, 0⟩, some 1)])) 5).getD []).drop
      (4 * 3)).take 4 = [1, 0, 0, 1] :=
  (claim_C8_color_cycling.2 [(⟨1, 0, 0⟩, some 1)] 5 3 (by decide) (by decide)
    ((processGlyphColors (some (.pairs [(⟨1, 0, 0⟩, some 1)])) 5).getD [])
    (by decide)).trans (by decide)

/-- Claim C7 — a character whose code has no glyph record is skipped by
both the measurement walk and the placement walk: the step consumes the
character while leaving the pen, the accumulated width and the placed
glyphs untouched, and it resets the previous-glyph context to `none`, so
the next resolved glyph pairs with "no previous glyph" and
`getKerningAmount` yields `0` for it. -/
theorem claim_C7_unresolved_skipped :
    (∀ (glyphLookup : ℕ → Option BMFontChar) (kerningLookup : ℕ → ℕ → Option ℚ)
      (fontSizeScale widthIncError letterSpacing : ℚ) (text : List ℕ)
      (stop fuel i : ℕ) (penX maxX : ℚ) (lastGlyph : Option BMFontChar),
      i < stop → glyphLookup (text.getD i 0) = none →
      measureLoop glyphLookup kerningLookup fontSizeScale widthIncError letterSpacing
          text stop (fuel + 1) i penX maxX lastGlyph =
        measureLoop glyphLookup kerningLookup fontSizeScale widthIncError letterSpacing
          text stop fuel (i + 1) penX maxX none) ∧
    (∀ (glyphLookup : ℕ → Option BMFontChar) (kerningLookup : ℕ → ℕ → Option ℚ)
      (fontSizeScale letterSpacing topLineY yOffset : ℚ) (lineIndex : ℕ) (text : List ℕ)
      (stop fuel i : ℕ) (penX lineWidth : ℚ) (glyphIndex : ℕ)
      (lastGlyph : Option BMFontChar),
      i < stop → glyphLookup (text.getD i 0) = none →
      lineWalk glyphLookup kerningLookup fontSizeScale letterSpacing topLineY yOffset
          lineIndex text stop (fuel + 1) i penX lineWidth glyphIndex lastGlyph =
        lineWalk glyphLookup kerningLookup fontSizeScale letterSpacing topLineY yOffset
          lineIndex text stop fuel (i + 1) penX lineWidth glyphIndex none) ∧
    (∀ (kerningLookup : ℕ → ℕ → Option ℚ) (g : BMFontChar),
      getKerningAmount kerningLookup none (some g) = 0) := by
  refine ⟨?_, ?_, ?_⟩
  · intro glyphLookup kerningLookup fontSizeScale widthIncError letterSpacing text stop
      fuel i penX maxX lastGlyph hi hg
    rw [measureLoop, if_pos hi, hg]
  · intro glyphLookup kerningLookup fontSizeScale letterSpacing topLineY yOffset lineIndex
      text stop fuel i penX lineWidth glyphIndex lastGlyph hi hg
    rw [lineWalk, if_pos hi, hg]
  · intro kerningLookup g
    rfl

lemma overwriteArray_idem {α : Type} (c b : List α) :
    overwriteArray (overwriteArray c b) b = overwriteArray c b := by
  simp only [overwriteArray]
  congr 1
  rw [List.drop_left]

lemma overwriteArray_self {α : Type} (b : List α) : overwriteArray b b = b := by
  simp [overwriteArray]

lemma option_map_overwrite_idem (o : Option (Attr ℚ)) (b : List ℚ) :
    Option.map ((fun a : Attr ℚ => (⟨a.id, overwriteArray a.array b⟩ : Attr ℚ)) ∘
      (fun a : Attr ℚ => (⟨a.id, overwriteArray a.array b⟩ : Attr ℚ))) o =
    Option.map (fun a : Attr ℚ => (⟨a.id, overwriteArray a.array b⟩ : Attr ℚ)) o := by
  cases o with
  | none => rfl
  | some a => simp [Function.comp, overwriteArray_idem]

section UpdateProjections

variable (st : GeometryState) (metrics : DomTextMetrics)
  (gcArg : Option (Option (List ℚ)))

lemma update_font : (st.update metrics gcArg).font = st.font := by
  simp only [GeometryState.update]
  split <;> rfl

lemma update_storedGlyphColors :
    (st.update metrics gcArg).storedGlyphColors = st.updateStored gcArg := by
  simp only [GeometryState.update]
  split <;> rfl

lemma update_currentGlyphCount :
    (st.update metrics gcArg).currentGlyphCount =
      some (st.updateBuilt metrics gcArg).glyphCount := by
  simp only [GeometryState.update]
  split <;> rfl

lemma update_nextId :
    (st.update metrics gcArg).nextId =
      if st.currentGlyphCount = some (st.updateBuilt metrics gcArg).glyphCount then
        st.nextId else st.nextId + 6 := by
  simp only [GeometryState.update]
  split <;> rfl

lemma update_position :
    (st.update metrics gcArg).position =
      if st.currentGlyphCount = some (st.updateBuilt metrics gcArg).glyphCount then
        st.position.map (fun a =>
          ⟨a.id, overwriteArray a.array (st.updateBuilt metrics gcArg).positions⟩)
      else some ⟨st.nextId, (st.updateBuilt metrics gcArg).positions⟩ := by
  simp only [GeometryState.update]
  split <;> rfl

lemma update_uv :
    (st.update metrics gcArg).uv =
      if st.currentGlyphCount = some (st.updateBuilt metrics gcArg).glyphCount then
        st.uv.map (fun a =>
          ⟨a.id, overwriteArray a.array (st.updateBuilt metrics gcArg).uvs⟩)
      else some ⟨st.nextId + 1, (st.updateBuilt metrics gcArg).uvs⟩ := by
  simp only [GeometryState.update]
  split <;> rfl

lemma update_center :
    (st.update metrics gcArg).center =
      if st.currentGlyphCount = some (st.updateBuilt metrics gcArg).glyphCount then
        st.center.map (fun a =>
          ⟨a.id, overwriteArray a.array (st.updateBuilt metrics gcArg).centers⟩)
      else some ⟨st.nextId + 2, (st.updateBuilt metrics gcArg).centers⟩ := by
  simp only [GeometryState.update]
  split <;> rfl

lemma update_glyphIndices :
    (st.update metrics gcArg).glyphIndices =
      if st.currentGlyphCount = some (st.updateBuilt metrics gcArg).glyphCount then
        st.glyphIndices
      else some ⟨st.nextId + 3, (st.updateBuilt metrics gcArg).glyphIndices⟩ := by
  simp only [GeometryState.update]
  split <;> rfl

lemma update_glyphColorsAttr :
    (st.update metrics gcArg).glyphColorsAttr =
      if st.currentGlyphCount = some (st.updateBuilt metrics gcArg).glyphCount then
        st.glyphColorsAttr.map (fun a =>
          ⟨a.id, overwriteArray a.array (st.updateBuilt metrics gcArg).glyphColors⟩)
      else some ⟨st.nextId + 4, (st.updateBuilt metrics gcArg).glyphColors⟩ := by
  simp only [GeometryState.update]
  split <;> rfl

lemma update_index :
    (st.update metrics gcArg).index =
      if st.currentGlyphCount = some (st.updateBuilt metrics gcArg).glyphCount then
        st.index
      else some ⟨st.nextId + 5, (st.updateBuilt metrics gcArg).indices⟩ := by
  simp only [GeometryState.update]
  split <;> rfl

lemma update_updateStored (st1 : GeometryState)
    (h : st1.storedGlyphColors = st.updateStored gcArg) :
    st1.updateStored gcArg = st.updateStored gcArg := by
  cases gcArg with
  | none => simpa [GeometryState.updateStored] using h
  | some v => rfl

lemma update_updateBuilt :
    (st.update metrics gcArg).updateBuilt metrics gcArg = st.updateBuilt metrics gcArg := by
  rw [GeometryState.updateBuilt, GeometryState.updateBuilt, update_font,
    update_updateStored st gcArg _ (update_storedGlyphColors st metrics gcArg)]

end UpdateProjections

lemma mem_attrId_lt {α : Type} (o : Option (Attr α)) (a n : ℕ)
    (ha : a ∈ attrId o) (hb : attrIdBelow o n = true) : a < n := by
  cases o with
  | none => simp [attrId] at ha
  | some x =>
      simp only [attrId, List.mem_singleton] at ha
      simp only [attrIdBelow, decide_eq_true_eq] at hb
      omega

lemma attrIds_lt_of_wellFormed (st : GeometryState) (hwf : st.wellFormed = true) :
    ∀ a ∈ st.attrIds, a < st.nextId := by
  intro a ha
  simp only [GeometryState.wellFormed, Bool.and_eq_true] at hwf
  obtain ⟨⟨⟨⟨⟨h1, h2⟩, h3⟩, h4⟩, h5⟩, h6⟩ := hwf
  simp only [GeometryState.attrIds, List.mem_append] at ha
  rcases ha with ((((ha | ha) | ha) | ha) | ha) | ha
  · exact mem_attrId_lt _ _ _ ha h1
  · exact mem_attrId_lt _ _ _ ha h2
  · exact mem_attrId_lt _ _ _ ha h3
  · exact mem_attrId_lt _ _ _ ha h4
  · exact mem_attrId_lt _ _ _ ha h5
  · exact mem_attrId_lt _ _ _ ha h6

lemma update_attrIds_realloc (st : GeometryState) (metrics : DomTextMetrics)
    (gcArg : Option (Option (List ℚ)))
    (h : ¬ st.currentGlyphCount = some (st.updateBuilt metrics gcArg).glyphCount) :
    (st.update metrics gcArg).attrIds =
      [st.nextId, st.nextId + 1, st.nextId + 2, st.nextId + 3, st.nextId + 4,
        st.nextId + 5] := by
  rw [GeometryState.attrIds, update_position, update_uv, update_center,
    update_glyphIndices, update_glyphColorsAttr, update_index,
    if_neg h, if_neg h, if_neg h, if_neg h, if_neg h, if_neg h]
  rfl

/-- Claim C3 — when a new layout pass yields the same glyph count as the
current buffers, `update` overwrites the position, UV, center and
glyph-color arrays in place (the attribute objects keep their identity)
and leaves the index and glyph-index attributes untouched; when the count
differs, all six attributes are reassigned to newly allocated objects
(fresh identities, disjoint from every identity the state held) carrying
the newly built arrays. -/
theorem claim_C3_in_place_or_reallocate :
    ∀ (st : GeometryState) (metrics : DomTextMetrics)
      (gcArg : Option (Option (List ℚ))),
      (st.currentGlyphCount = some (st.updateBuilt metrics gcArg).glyphCount →
        (st.update metrics gcArg).position = st.position.map (fun a =>
          ⟨a.id, overwriteArray a.array (st.updateBuilt metrics gcArg).positions⟩) ∧
        (st.update metrics gcArg).uv = st.uv.map (fun a =>
          ⟨a.id, overwriteArray a.array (st.updateBuilt metrics gcArg).uvs⟩) ∧
        (st.update metrics gcArg).center = st.center.map (fun a =>
          ⟨a.id, overwriteArray a.array (st.updateBuilt metrics gcArg).centers⟩) ∧
        (st.update metrics gcArg).glyphColorsAttr = st.glyphColorsAttr.map (fun a =>
          ⟨a.id, overwriteArray a.array (st.updateBuilt metrics gcArg).glyphColors⟩) ∧
        (st.update metrics gcArg).index = st.index ∧
        (st.update metrics gcArg).glyphIndices = st.glyphIndices) ∧
      (st.currentGlyphCount ≠ some (st.updateBuilt metrics gcArg).glyphCount →
        (st.update metrics gcArg).position =
          some ⟨st.nextId, (st.updateBuilt metrics gcArg).positions⟩ ∧
        (st.update metrics gcArg).uv =
          some ⟨st.nextId + 1, (st.updateBuilt metrics gcArg).uvs⟩ ∧
        (st.update metrics gcArg).center =
          some ⟨st.nextId + 2, (st.updateBuilt metrics gcArg).centers⟩ ∧
        (st.update metrics gcArg).glyphIndices =
          some ⟨st.nextId + 3, (st.updateBuilt metrics gcArg).glyphIndices⟩ ∧
        (st.update metrics gcArg).glyphColorsAttr =
          some ⟨st.nextId + 4, (st.updateBuilt metrics gcArg).glyphColors⟩ ∧
        (st.update metrics gcArg).index =
          some ⟨st.nextId + 5, (st.updateBuilt metrics gcArg).indices⟩ ∧
        (st.wellFormed = true →
          ∀ a ∈ st.attrIds, ∀ b ∈ (st.update metrics gcArg).attrIds, a ≠ b)) := by
  intro st metrics gcArg
  constructor
  · intro h
    exact ⟨by rw [update_position, if_pos h], by rw [update_uv, if_pos h],
      by rw [update_center, if_pos h], by rw [update_glyphColorsAttr, if_pos h],
      by rw [update_index, if_pos h], by rw [update_glyphIndices, if_pos h]⟩
  · intro h
    refine ⟨by rw [update_position, if_neg h], by rw [update_uv, if_neg h],
      by rw [update_center, if_neg h], by rw [update_glyphIndices, if_neg h],
      by rw [update_glyphColorsAttr, if_neg h], by rw [update_index, if_neg h], ?_⟩
    intro hwf a ha b hb
    have ha' := attrIds_lt_of_wellFormed st hwf a ha
    rw [update_attrIds_realloc st metrics gcArg h] at hb
    simp only [List.mem_cons, List.not_mem_nil, or_false] at hb
    rcases hb with rfl | rfl | rfl | rfl | rfl | rfl <;> omega

/-- Witness for claim C3: over the `nowrap` demonstration geometry, a
same-count update keeps the index attribute object untouched, while a
count-changing update reassigns the position attribute to a fresh object
(id 6, the old position id 0 is disjoint from every new id). -/
theorem claim_C3_in_place_or_reallocate_witness :
    (demoGeometry.update demoMetricsNowrap none).index = demoGeometry.index ∧
    (demoGeometry.update demoMetricsNowrapB none).position =
      some ⟨demoGeometry.nextId,
        (demoGeometry.updateBuilt demoMetricsNowrapB none).positions⟩ ∧
    (0 : ℕ) ≠ (6 : ℕ) :=
  ⟨((claim_C3_in_place_or_reallocate demoGeometry demoMetricsNowrap none).1
      (by decide)).2.2.2.2.1,
   ((claim_C3_in_place_or_reallocate demoGeometry demoMetricsNowrapB none).2
      (by decide)).1,
   ((claim_C3_in_place_or_reallocate demoGeometry demoMetricsNowrapB none).2
      (by decide)).2.2.2.2.2.2 (by decide) 0 (by decide) 6 (by decide)⟩

/-- Claim C5 — calling `update` twice with the same metrics and the same
glyph-color argument is idempotent: the second call leaves the position,
UV, center and index buffers (contents and identity) exactly as the first
call produced them, because layout and buffer construction are pure
functions of the metrics, font and color inputs and the second pass finds
an equal glyph count. -/
theorem claim_C5_update_idempotent :
    ∀ (st : GeometryState) (metrics : DomTextMetrics)
      (glyphColorsArg : Option (Option (List ℚ))),
      ((st.update metrics glyphColorsArg).update metrics glyphColorsArg).position =
        (st.update metrics glyphColorsArg).position ∧
      ((st.update metrics glyphColorsArg).update metrics glyphColorsArg).uv =
        (st.update metrics glyphColorsArg).uv ∧
      ((st.update metrics glyphColorsArg).update metrics glyphColorsArg).center =
        (st.update metrics glyphColorsArg).center ∧
      ((st.update metrics glyphColorsArg).update metrics glyphColorsArg).index =
        (st.update metrics glyphColorsArg).index := by
  intro st metrics gcArg
  have hb := update_updateBuilt st metrics gcArg
  have hc : (st.update metrics gcArg).currentGlyphCount =
      some ((st.update metrics gcArg).updateBuilt metrics gcArg).glyphCount := by
    rw [update_currentGlyphCount, hb]
  refine ⟨?_, ?_, ?_, ?_⟩
  · rw [update_position (st.update metrics gcArg) metrics gcArg, if_pos hc, hb,
      update_position st metrics gcArg]
    by_cases h : st.currentGlyphCount = some (st.updateBuilt metrics gcArg).glyphCount
    · rw [if_pos h, Option.map_map]
      exact option_map_overwrite_idem _ _
    · rw [if_neg h]
      simp [overwriteArray_self]
  · rw [update_uv (st.update metrics gcArg) metrics gcArg, if_pos hc, hb,
      update_uv st metrics gcArg]
    by_cases h : st.currentGlyphCount = some (st.updateBuilt metrics gcArg).glyphCount
    · rw [if_pos h, Option.map_map]
      exact option_map_overwrite_idem _ _
    · rw [if_neg h]
      simp [overwriteArray_self]
  · rw [update_center (st.update metrics gcArg) metrics gcArg, if_pos hc, hb,
      update_center st metrics gcArg]
    by_cases h : st.currentGlyphCount = some (st.updateBuilt metrics gcArg).glyphCount
    · rw [if_pos h, Option.map_map]
      exact option_map_overwrite_idem _ _
    · rw [if_neg h]
      simp [overwriteArray_self]
  · rw [update_index (st.update metrics gcArg) metrics gcArg, if_pos hc]

/-- Claim C6 (code bug) — at the failing input (threshold 0.2, outset
width 0, configured inset width 0.3, sharp mode, sample (0.6, 0.6, 0.6),
derivative 0.5) the source's per-pixel computation offsets the inset
signed distance by half the OUTSET width (lines 238-239 of
src/src/MSDFTextMaterial/index.ts), so the declared `strokeInsetWidth`
uniform is ignored and the inset alpha (0.3) differs from the
claim-described value (0); the border mask does equal
`outsetAlpha × insetAlpha` as claimed. -/
theorem claim_C6_inset_ignores_inset_width :
    (msdfFragment ⟨1/5, 0, 3/10, 0⟩ (3/5) (3/5) (3/5) (1/2)).sigDistInset =
      (msdfFragment ⟨1/5, 0, 3/10, 0⟩ (3/5) (3/5) (3/5) (1/2)).sigDist +
        (0 : ℚ) * (1/2) ∧
    (msdfFragment ⟨1/5, 0, 3/10, 0⟩ (3/5) (3/5) (3/5) (1/2)).insetAlpha = 3/10 ∧
    claimInsetAlphaSharp ⟨1/5, 0, 3/10, 0⟩
      ((msdfFragment ⟨1/5, 0, 3/10, 0⟩ (3/5) (3/5) (3/5) (1/2)).sigDist) (1/2) = 0 ∧
    (msdfFragment ⟨1/5, 0, 3/10, 0⟩ (3/5) (3/5) (3/5) (1/2)).insetAlpha ≠
      claimInsetAlphaSharp ⟨1/5, 0, 3/10, 0⟩
        ((msdfFragment ⟨1/5, 0, 3/10, 0⟩ (3/5) (3/5) (3/5) (1/2)).sigDist) (1/2) ∧
    (msdfFragment ⟨1/5, 0, 3/10, 0⟩ (3/5) (3/5) (3/5) (1/2)).border =
      (msdfFragment ⟨1/5, 0, 3/10, 0⟩ (3/5) (3/5) (3/5) (1/2)).outsetAlpha *
        (msdfFragment ⟨1/5, 0, 3/10, 0⟩ (3/5) (3/5) (3/5) (1/2)).insetAlpha := by
  refine ⟨?_, ?_, ?_, ?_, ?_⟩ <;>
    norm_num [msdfFragment, claimInsetAlphaSharp, claimSigDistInset, median3, clamp01,
      glslMix, glslSmoothstep, afwidth]

/-- Witness for claim C7: the code 99 (`c`) has no glyph in the
demonstration font; the measuring and placing walks both skip it at index
0 with pen and width untouched, and a reset kerning context yields 0
against glyph `a`. -/
theorem claim_C7_unresolved_skipped_witness :
    measureLoop (buildGlyphLookup demoFont) (buildKerningLookup demoFont) 1 100 0
        [99, 97] 2 2 0 0 0 none =
      measureLoop (buildGlyphLookup demoFont) (buildKerningLookup demoFont) 1 100 0
        [99, 97] 2 1 1 0 0 none ∧
    lineWalk (buildGlyphLookup demoFont) (buildKerningLookup demoFont) 1 0 0 0 0
        [99, 97] 2 2 0 0 0 0 none =
      lineWalk (buildGlyphLookup demoFont) (buildKerningLookup demoFont) 1 0 0 0 0
        [99, 97] 2 1 1 0 0 0 none ∧
    getKerningAmount (buildKerningLookup demoFont) none (some demoGlyphA) = 0 :=
  ⟨claim_C7_unresolved_skipped.1 (buildGlyphLookup demoFont)
      (buildKerningLookup demoFont) 1 100 0 [99, 97] 2 1 0 0 0 none (by decide) (by decide),
   claim_C7_unresolved_skipped.2.1 (buildGlyphLookup demoFont)
      (buildKerningLookup demoFont) 1 0 0 0 0 [99, 97] 2 1 0 0 0 0 none (by decide)
      (by decide),
   claim_C7_unresolved_skipped.2.2 (buildKerningLookup demoFont) demoGlyphA⟩

/-- Witness for claim C10: a single-entry raw array on a two-glyph
geometry leaves glyph 1 opaque white, and the `null` rebuild of one glyph
is all ones. -/
theorem claim_C10_short_array_fill_witness :
    (rebuildGlyphColors (some [1/2, 1/2, 1/2, 1]) 2).getD (16 * 1 + (4 * 0 + 1)) 0 =
      ([1/2, 1/2, 1/2, 1] : List ℚ).getD (1 * 4 + 1) 1 ∧
    rebuildGlyphColors none 1 = List.replicate (16 * 1) 1 :=
  ⟨claim_C10_short_array_fill.1 [1/2, 1/2, 1/2, 1] 2 1 0 1 (by decide) (by decide)
      (by decide),
   claim_C10_short_array_fill.2.1 1⟩

/-- Witness for claim C2: the index entry `7` of the two-glyph
demonstration buffers is covered by the bound `4 × glyphCount`. -/
theorem claim_C2_buffer_invariants_witness :
    (7 : ℕ) ∈ (buildGeometryAttributes demoPlaced demoFont true).indices ∧
    (7 : ℕ) < 4 * demoPlaced.length :=
  ⟨by decide,
   (claim_C2_buffer_invariants.1 demoPlaced demoFont true).2.2.2.2.2 7 (by decide)⟩

/-- Claim C1: in `normal` whitespace mode, for every text, nonnegative
wrap width and font, every line produced by the word wrap has measured
pixel width (the running max glyph right edge of the line walk, for any
placement parameters) at most `width × 1.005`; the only exception is a
one-character line whose single resolved glyph's standalone right edge
(`(xoffset + width) × fontSizeScale`) already exceeds the wrap width —
that glyph is still placed alone on its own line rather than dropped. -/
theorem claim_C1_normal_wrap_width (metrics : DomTextMetrics) (font : BMFontJSON)
    (hmode : metrics.fontCssStyles.whiteSpace = WhiteSpace.normal)
    (hw : 0 ≤ metrics.widthPx) :
    ∀ l ∈ (layoutText metrics font).lines,
      ∀ (topLineY yOffset : ℚ) (lineIndex glyphIndex : ℕ),
        (lineWalk (buildGlyphLookup font) (buildKerningLookup font)
            (metrics.fontCssStyles.fontSize / font.infoSize)
            metrics.fontCssStyles.letterSpacingPx topLineY yOffset lineIndex
            metrics.text l.endIdx l.endIdx l.start 0 0 glyphIndex none).2.1 ≤
          metrics.widthPx * (1005 / 1000) ∨
        (l.endIdx = l.start + 1 ∧
          (lineWalk (buildGlyphLookup font) (buildKerningLookup font)
            (metrics.fontCssStyles.fontSize / font.infoSize)
            metrics.fontCssStyles.letterSpacingPx topLineY yOffset lineIndex
            metrics.text l.endIdx l.endIdx l.start 0 0 glyphIndex none).1.length = 1 ∧
          ∃ g, buildGlyphLookup font (metrics.text.getD l.start 0) = some g ∧
            metrics.widthPx <
              g.xoffset * (metrics.fontCssStyles.fontSize / font.infoSize) +
                g.width * (metrics.fontCssStyles.fontSize / font.infoSize)) := by
  intro l hl topLineY yOffset lineIndex glyphIndex
  have hlines : (layoutText metrics font).lines =
      wordWrapLines
        (fun s e w => measureRange (buildGlyphLookup font) (buildKerningLookup font)
          (metrics.fontCssStyles.fontSize / font.infoSize) (1 / 2)
          metrics.fontCssStyles.letterSpacingPx metrics.text s e w)
        metrics.text metrics.widthPx metrics.fontCssStyles.whiteSpace := rfl
  rw [hlines, hmode] at hl
  simp only [wordWrapLines] at hl
  by_cases htz : metrics.text.length = 0
  · rw [if_pos htz] at hl
    simp only [List.mem_singleton] at hl
    subst hl
    left
    have h0 : (lineWalk (buildGlyphLookup font) (buildKerningLookup font)
        (metrics.fontCssStyles.fontSize / font.infoSize)
        metrics.fontCssStyles.letterSpacingPx topLineY yOffset lineIndex
        metrics.text (Line.mk 0 0).endIdx (Line.mk 0 0).endIdx (Line.mk 0 0).start
        0 0 glyphIndex none).2.1 = 0 := rfl
    rw [h0]
    exact mul_nonneg hw (by norm_num)
  · rw [if_neg htz] at hl
    have hinv := greedyGo_line_bound metrics.text
      (fun s e w => measureRange (buildGlyphLookup font) (buildKerningLookup font)
        (metrics.fontCssStyles.fontSize / font.infoSize) (1 / 2)
        metrics.fontCssStyles.letterSpacingPx metrics.text s e w)
      metrics.widthPx (metrics.text.length + 1) 0 l hl
    rcases hinv with hA | ⟨hm, he1, hs⟩
    · left
      have hA' : l.endIdx ≤ (measureLoop (buildGlyphLookup font)
          (buildKerningLookup font) (metrics.fontCssStyles.fontSize / font.infoSize)
          (metrics.widthPx * (1 + 1 / 2 / 100)) metrics.fontCssStyles.letterSpacingPx
          metrics.text metrics.text.length metrics.text.length l.start 0 0 none).1 := by
        simpa only [measureRange, Nat.min_self] using hA
      have hb := walk_width_le_of_no_break (buildGlyphLookup font)
        (buildKerningLookup font) (metrics.fontCssStyles.fontSize / font.infoSize)
        (metrics.widthPx * (1 + 1 / 2 / 100)) metrics.fontCssStyles.letterSpacingPx
        metrics.text metrics.text.length topLineY yOffset lineIndex l.endIdx
        metrics.text.length l.start 0 0 none (by omega) hA' l.endIdx 0 glyphIndex
      have hmax : max (0 : ℚ) (metrics.widthPx * (1 + 1 / 2 / 100)) =
          metrics.widthPx * (1 + 1 / 2 / 100) :=
        max_eq_right (mul_nonneg hw (by norm_num))
      rw [hmax] at hb
      have heq : metrics.widthPx * (1 + 1 / 2 / 100) =
          metrics.widthPx * (1005 / 1000) := by ring
      rw [heq] at hb
      exact hb
    · right
      have hm' : (measureLoop (buildGlyphLookup font) (buildKerningLookup font)
          (metrics.fontCssStyles.fontSize / font.infoSize)
          (metrics.widthPx * (1 + 1 / 2 / 100)) metrics.fontCssStyles.letterSpacingPx
          metrics.text metrics.text.length metrics.text.length l.start 0 0 none).1 =
          l.start := by
        simpa only [measureRange, Nat.min_self] using hm
      obtain ⟨k, hk⟩ : ∃ k, metrics.text.length = k + 1 := ⟨metrics.text.length - 1,
        by omega⟩
      rw [hk] at hm'
      obtain ⟨g, hg, hgt⟩ := measureLoop_zero_progress (buildGlyphLookup font)
        (buildKerningLookup font) (metrics.fontCssStyles.fontSize / font.infoSize)
        (metrics.widthPx * (1 + 1 / 2 / 100)) metrics.fontCssStyles.letterSpacingPx
        metrics.text (k + 1) l.start (by omega) k hm'
      refine ⟨he1, ?_, g, hg, ?_⟩
      · rw [he1]
        rw [lineWalk, if_pos (Nat.lt_succ_self l.start), hg]
        dsimp only
        rw [lineWalk_stop (buildGlyphLookup font) (buildKerningLookup font)
          metrics.text (metrics.fontCssStyles.fontSize / font.infoSize)
          metrics.fontCssStyles.letterSpacingPx topLineY yOffset lineIndex
          (l.start + 1) l.start (l.start + 1) _ _ _ (some g) (le_refl _)]
        rfl
      · have hk0 : getKerningAmount (buildKerningLookup font) none (some g) = 0 := rfl
        rw [hk0] at hgt
        nlinarith [hgt, hw]

/-- Witness for claim C1: at the narrow demonstration width 25 the first
produced line is `ab` and the claim's disjunction holds for it. -/
theorem claim_C1_normal_wrap_width_witness :
    (⟨0, 2⟩ : Line) ∈ (layoutText demoMetricsNarrow demoFont).lines ∧
    ((lineWalk (buildGlyphLookup demoFont) (buildKerningLookup demoFont)
        (demoMetricsNarrow.fontCssStyles.fontSize / demoFont.infoSize)
        demoMetricsNarrow.fontCssStyles.letterSpacingPx 0 0 0
        demoMetricsNarrow.text (⟨0, 2⟩ : Line).endIdx (⟨0, 2⟩ : Line).endIdx
        (⟨0, 2⟩ : Line).start 0 0 0 none).2.1 ≤
      demoMetricsNarrow.widthPx * (1005 / 1000) ∨
    ((⟨0, 2⟩ : Line).endIdx = (⟨0, 2⟩ : Line).start + 1 ∧
      (lineWalk (buildGlyphLookup demoFont) (buildKerningLookup demoFont)
        (demoMetricsNarrow.fontCssStyles.fontSize / demoFont.infoSize)
        demoMetricsNarrow.fontCssStyles.letterSpacingPx 0 0 0
        demoMetricsNarrow.text (⟨0, 2⟩ : Line).endIdx (⟨0, 2⟩ : Line).endIdx
        (⟨0, 2⟩ : Line).start 0 0 0 none).1.length = 1 ∧
      ∃ g, buildGlyphLookup demoFont (demoMetricsNarrow.text.getD
          (⟨0, 2⟩ : Line).start 0) = some g ∧
        demoMetricsNarrow.widthPx <
          g.xoffset * (demoMetricsNarrow.fontCssStyles.fontSize / demoFont.infoSize) +
            g.width * (demoMetricsNarrow.fontCssStyles.fontSize / demoFont.infoSize))) := by
  have hmem : (⟨0, 2⟩ : Line) ∈ (layoutText demoMetricsNarrow demoFont).lines := by
    have h : (layoutText demoMetricsNarrow demoFont).lines = [⟨0, 2⟩, ⟨3, 5⟩] := by
      norm_num [layoutText, wordWrapLines, greedyGo, skipWs, skipWsGo, lastWsIn,
        measureRange, measureLoop, demoFont, demoMetricsNarrow, demoStyles,
        buildGlyphLookup, buildKerningLookup, getKerningAmount, demoGlyphA, demoGlyphB,
        demoGlyphSpace, isWhitespaceCode]
    rw [h]
    simp
  exact ⟨hmem, claim_C1_normal_wrap_width demoMetricsNarrow demoFont rfl (by decide)
    ⟨0, 2⟩ hmem 0 0 0 0⟩

end MSDF
